import Mathlib

/-!
Shallow embedding of the DiskBSpline class from `src/index.js` (dbsc-svg).

Modelling conventions:
* JavaScript floating-point numbers are modelled by `ℚ` wherever the source
  only performs field operations (every JS float is a rational number), and by
  `ℝ` in the parts that apply `Math.sqrt` / `Math.pow (·, 1.5)`.
* JS array reads `a[i]` are modelled by `List.getD i dflt`; within the
  operations the claims quantify over, all accesses are in bounds.
* The JS remainder operator `%` (sign of the dividend) is modelled by `jsMod`.
* The mutating method `generateUniformKnots` is modelled as a state
  transformer `DiskBSpline → DiskBSpline`; the constructor is `mkDiskBSpline`.
-/

/-- A 2-D point, as in the `center` objects of the source. -/
@[ext] structure Pt where
  x : ℚ
  y : ℚ
  deriving DecidableEq, Repr

/-- A control disk: a center plus a radius. -/
@[ext] structure Disk where
  center : Pt
  radius : ℚ
  deriving DecidableEq, Repr

instance : Inhabited Disk := ⟨⟨⟨0, 0⟩, 0⟩, ⟩

/-- State of a `DiskBSpline` instance: the fields the constructor sets
(the `debug` flag only controls logging and is omitted). -/
structure DiskBSpline where
  degree : ℕ
  closed : Bool
  controlDisks : List Disk
  knots : List ℚ
  deriving DecidableEq, Repr

/-- Truncation toward zero, as used by the JS `%` operator. -/
def ratTrunc (q : ℚ) : ℤ := if 0 ≤ q then ⌊q⌋ else ⌈q⌉

/-- The JS remainder operator `a % b` (result has the sign of `a`). -/
def jsMod (a b : ℚ) : ℚ := a - b * ratTrunc (a / b)

/-- Knot value formula of the open branch of `generateUniformKnots`:
clamped to `0` below index `k+1`, to `n-k+1` above index `n`, else `i-k`. -/
def openKnotZ (n k i : ℕ) : ℤ :=
  if i < k + 1 then 0 else if n < i then (n : ℤ) - k + 1 else (i : ℤ) - k

/-- Knot value formula of the closed branch of `generateUniformKnots`:
the uniform progression `i - k`. -/
def closedKnotZ (k i : ℕ) : ℤ := (i : ℤ) - k

namespace DiskBSpline

/-- The method `generateUniformKnots`: with `n = controlDisks.length - 1`,
returns early (no mutation) when `n < degree`; otherwise rebuilds the knot
list.  Both branches of the source push `len + degree + 1` knots
(`n + k + 2 = len + k + 1` for the open branch). -/
def generateUniformKnots (s : DiskBSpline) : DiskBSpline :=
  if (s.controlDisks.length : ℤ) - 1 < (s.degree : ℤ) then s
  else
    { s with
      knots :=
        if s.closed then
          (List.range (s.controlDisks.length + s.degree + 1)).map
            (fun i => ((closedKnotZ s.degree i : ℤ) : ℚ))
        else
          (List.range (s.controlDisks.length + s.degree + 1)).map
            (fun i => ((openKnotZ (s.controlDisks.length - 1) s.degree i : ℤ) : ℚ)) }

end DiskBSpline

/-- The constructor's wrapping of control disks: for closed shapes with more
than `degree` disks, the first `degree` disks are appended at the end. -/
def wrapDisks (controlDisks : List Disk) (degree : ℕ) (closed : Bool) : List Disk :=
  if closed = true ∧ degree < controlDisks.length then
    controlDisks ++ controlDisks.take degree
  else controlDisks

/-- The `DiskBSpline` constructor: wrap disks for closed shapes, start with an
empty knot list, then run `generateUniformKnots`. -/
def mkDiskBSpline (controlDisks : List Disk) (degree : ℕ) (closed : Bool) : DiskBSpline :=
  DiskBSpline.generateUniformKnots
    { degree := degree
      closed := closed
      controlDisks := wrapDisks controlDisks degree closed
      knots := [] }

namespace DiskBSpline

/-- The method `addDisk`: push a disk, then regenerate the knot vector. -/
def addDisk (s : DiskBSpline) (d : Disk) : DiskBSpline :=
  generateUniformKnots { s with controlDisks := s.controlDisks ++ [d] }

/-- Read access `this.knots[i]` (in-bounds in every use the claims reach). -/
def kn (s : DiskBSpline) (i : ℕ) : ℚ := s.knots.getD i 0

/-- The recursive B-spline basis function `basisFunction(i, k, u)`, including
the open-shape special case of the source at the last knot value (note that in
the base case the source compares `i` with `knots.length - k - 2` where `k` is
the base-case argument `0`; the comparison is integer-valued in JS, hence the
`ℤ` cast). -/
def basisFunction (s : DiskBSpline) (i : ℕ) : ℕ → ℚ → ℚ
  | 0, u =>
    if s.closed = false ∧ u = s.kn (s.knots.length - 1) ∧
        (i : ℤ) = (s.knots.length : ℤ) - 2 then 1
    else if s.kn i ≤ u ∧ u < s.kn (i + 1) then 1 else 0
  | k + 1, u =>
    (if s.kn (i + (k + 1)) - s.kn i ≠ 0 then
        (u - s.kn i) / (s.kn (i + (k + 1)) - s.kn i) else 0) *
      s.basisFunction i k u +
    (if s.kn (i + (k + 1) + 1) - s.kn (i + 1) ≠ 0 then
        (s.kn (i + (k + 1) + 1) - u) / (s.kn (i + (k + 1) + 1) - s.kn (i + 1)) else 0) *
      s.basisFunction (i + 1) k u

/-- The derivative of the basis function, `basisFunctionDerivative(i, k, u)`. -/
def basisFunctionDerivative (s : DiskBSpline) (i : ℕ) (k : ℕ) (u : ℚ) : ℚ :=
  match k with
  | 0 => 0
  | k + 1 =>
    (if s.kn (i + (k + 1)) - s.kn i ≠ 0 then
        ((k + 1 : ℚ)) / (s.kn (i + (k + 1)) - s.kn i) else 0) *
      s.basisFunction i k u -
    (if s.kn (i + (k + 1) + 1) - s.kn (i + 1) ≠ 0 then
        ((k + 1 : ℚ)) / (s.kn (i + (k + 1) + 1) - s.kn (i + 1)) else 0) *
      s.basisFunction (i + 1) k u

/-- The weighted-sum loop of `evaluateAt` (indices `0 … n`). -/
def diskSum (s : DiskBSpline) (u : ℚ) : Disk :=
  { center :=
      { x := ∑ i in Finset.range (s.controlDisks.length - 1 + 1),
          s.basisFunction i s.degree u * (s.controlDisks.getD i default).center.x
        y := ∑ i in Finset.range (s.controlDisks.length - 1 + 1),
          s.basisFunction i s.degree u * (s.controlDisks.getD i default).center.y }
    radius := ∑ i in Finset.range (s.controlDisks.length - 1 + 1),
      s.basisFunction i s.degree u * (s.controlDisks.getD i default).radius }

/-- Parameter wrapping of closed shapes:
`u = knots[degree] + ((u - knots[degree]) % period)` with the JS `%`. -/
def wrapParam (s : DiskBSpline) (u : ℚ) : ℚ :=
  s.kn s.degree +
    jsMod (u - s.kn s.degree)
      (s.kn (s.controlDisks.length - 1 + 1) - s.kn s.degree)

/-- Parameter clamping of open shapes:
`u = max(knots[degree], min(u, knots[n+1]))`. -/
def clampParam (s : DiskBSpline) (u : ℚ) : ℚ :=
  max (s.kn s.degree) (min u (s.kn (s.controlDisks.length - 1 + 1)))

/-- The method `evaluateAt(u)`: zero disk on too few control points; parameter
wrapping for closed shapes; for open shapes a short-circuit to the last
control disk at `u ≥ knots[n+1]`, else clamping; then the basis-weighted sum. -/
def evaluateAt (s : DiskBSpline) (u : ℚ) : Disk :=
  if s.controlDisks.length < s.degree + 1 then ⟨⟨0, 0⟩, 0⟩
  else if s.closed then s.diskSum (s.wrapParam u)
  else if s.kn (s.controlDisks.length - 1 + 1) ≤ u then
    s.controlDisks.getD (s.controlDisks.length - 1) default
  else s.diskSum (s.clampParam u)

end DiskBSpline

/-- Cox–de Boor basis recursion over an arbitrary knot function, with the
source's zero-denominator guards. -/
def coxBasis (kn : ℕ → ℚ) : ℕ → ℕ → ℚ → ℚ
  | i, 0, u => if kn i ≤ u ∧ u < kn (i + 1) then 1 else 0
  | i, k + 1, u =>
    (if kn (i + (k + 1)) - kn i ≠ 0 then
        (u - kn i) / (kn (i + (k + 1)) - kn i) else 0) *
      coxBasis kn i k u +
    (if kn (i + (k + 1) + 1) - kn (i + 1) ≠ 0 then
        (kn (i + (k + 1) + 1) - u) / (kn (i + (k + 1) + 1) - kn (i + 1)) else 0) *
      coxBasis kn (i + 1) k u

/-- The open knot formula as a rational-valued function. -/
def openKnotQ (n k i : ℕ) : ℚ := ((openKnotZ n k i : ℤ) : ℚ)

/-- The closed knot formula as a rational-valued function. -/
def closedKnotQ (k i : ℕ) : ℚ := ((closedKnotZ k i : ℤ) : ℚ)

/-- Scenario A of the spec: 4 disks `(0,0,1),(10,0,2),(20,0,2),(30,0,1)`. -/
def scenarioDisksA : List Disk :=
  [⟨⟨0, 0⟩, 1⟩, ⟨⟨10, 0⟩, 2⟩, ⟨⟨20, 0⟩, 2⟩, ⟨⟨30, 0⟩, 1⟩]

/-- A minimal open spline: 2 disks, degree 1 (knots `[0,0,1,1]`). -/
def twoDisksB : List Disk := [⟨⟨0, 0⟩, 1⟩, ⟨⟨4, 0⟩, 2⟩]

/-- A minimal closed spline: 2 disks, degree 1 (period 2). -/
def twoDisksC : List Disk := [⟨⟨0, 0⟩, 2⟩, ⟨⟨4, 0⟩, 2⟩]

/-- Scenario C of the spec: 4 disks forming a square, all radius 5, closed. -/
def squareDisksD : List Disk :=
  [⟨⟨0, 0⟩, 5⟩, ⟨⟨10, 0⟩, 5⟩, ⟨⟨10, 10⟩, 5⟩, ⟨⟨0, 10⟩, 5⟩]

/-- Three disks of radius 2: too few control points for degree 3. -/
def threeDisksE : List Disk := [⟨⟨0, 0⟩, 2⟩, ⟨⟨10, 0⟩, 2⟩, ⟨⟨20, 0⟩, 2⟩]

/-- A derivative vector `{x, y, radiusRate}` as returned by
`evaluateDerivativeAt`. -/
@[ext] structure Deriv3 where
  x : ℝ
  y : ℝ
  radiusRate : ℝ

/-- The summation loop of `evaluateDerivativeAt` (indices `0 … n`), over `ℚ`. -/
def DiskBSpline.derivLoopSumQ (s : DiskBSpline) (u : ℚ) : ℚ × ℚ × ℚ :=
  (∑ i in Finset.range (s.controlDisks.length - 1 + 1),
     s.basisFunctionDerivative i s.degree u * (s.controlDisks.getD i default).center.x,
   ∑ i in Finset.range (s.controlDisks.length - 1 + 1),
     s.basisFunctionDerivative i s.degree u * (s.controlDisks.getD i default).center.y,
   ∑ i in Finset.range (s.controlDisks.length - 1 + 1),
     s.basisFunctionDerivative i s.degree u * (s.controlDisks.getD i default).radius)

/-- Casting a rational derivative triple into the real-valued result record. -/
def d3ofQ (t : ℚ × ℚ × ℚ) : Deriv3 := ⟨(t.1 : ℝ), (t.2.1 : ℝ), (t.2.2 : ℝ)⟩

/-- The method `evaluateDerivativeAt(u)`: closed shapes wrap and sum; open
shapes first try the normalized finite difference between the two
boundary-adjacent control disks at `u ≥ knots[n+1]` (resp. `u ≤ knots[degree]`)
and only when that difference is near-zero (length ≤ 1e-4) fall through to
clamping and the analytic loop. -/
noncomputable def DiskBSpline.evaluateDerivativeAt (s : DiskBSpline) (u : ℚ) : Deriv3 :=
  if s.controlDisks.length < s.degree + 1 then ⟨0, 0, 0⟩
  else if s.closed then d3ofQ (s.derivLoopSumQ (s.wrapParam u))
  else if s.kn (s.controlDisks.length - 1 + 1) ≤ u then
    if 1 / 10000 < Real.sqrt
        ((((s.controlDisks.getD (s.controlDisks.length - 1) default).center.x -
            (s.controlDisks.getD (s.controlDisks.length - 1 - 1) default).center.x : ℚ) : ℝ) *
          (((s.controlDisks.getD (s.controlDisks.length - 1) default).center.x -
            (s.controlDisks.getD (s.controlDisks.length - 1 - 1) default).center.x : ℚ) : ℝ) +
         (((s.controlDisks.getD (s.controlDisks.length - 1) default).center.y -
            (s.controlDisks.getD (s.controlDisks.length - 1 - 1) default).center.y : ℚ) : ℝ) *
          (((s.controlDisks.getD (s.controlDisks.length - 1) default).center.y -
            (s.controlDisks.getD (s.controlDisks.length - 1 - 1) default).center.y : ℚ) : ℝ)) then
      { x := (((s.controlDisks.getD (s.controlDisks.length - 1) default).center.x -
            (s.controlDisks.getD (s.controlDisks.length - 1 - 1) default).center.x : ℚ) : ℝ) /
          Real.sqrt
            ((((s.controlDisks.getD (s.controlDisks.length - 1) default).center.x -
                (s.controlDisks.getD (s.controlDisks.length - 1 - 1) default).center.x : ℚ) : ℝ) *
              (((s.controlDisks.getD (s.controlDisks.length - 1) default).center.x -
                (s.controlDisks.getD (s.controlDisks.length - 1 - 1) default).center.x : ℚ) : ℝ) +
             (((s.controlDisks.getD (s.controlDisks.length - 1) default).center.y -
                (s.controlDisks.getD (s.controlDisks.length - 1 - 1) default).center.y : ℚ) : ℝ) *
              (((s.controlDisks.getD (s.controlDisks.length - 1) default).center.y -
                (s.controlDisks.getD (s.controlDisks.length - 1 - 1) default).center.y : ℚ) : ℝ))
        y := (((s.controlDisks.getD (s.controlDisks.length - 1) default).center.y -
            (s.controlDisks.getD (s.controlDisks.length - 1 - 1) default).center.y : ℚ) : ℝ) /
          Real.sqrt
            ((((s.controlDisks.getD (s.controlDisks.length - 1) default).center.x -
                (s.controlDisks.getD (s.controlDisks.length - 1 - 1) default).center.x : ℚ) : ℝ) *
              (((s.controlDisks.getD (s.controlDisks.length - 1) default).center.x -
                (s.controlDisks.getD (s.controlDisks.length - 1 - 1) default).center.x : ℚ) : ℝ) +
             (((s.controlDisks.getD (s.controlDisks.length - 1) default).center.y -
                (s.controlDisks.getD (s.controlDisks.length - 1 - 1) default).center.y : ℚ) : ℝ) *
              (((s.controlDisks.getD (s.controlDisks.length - 1) default).center.y -
                (s.controlDisks.getD (s.controlDisks.length - 1 - 1) default).center.y : ℚ) : ℝ))
        radiusRate := (((s.controlDisks.getD (s.controlDisks.length - 1) default).radius -
            (s.controlDisks.getD (s.controlDisks.length - 1 - 1) default).radius : ℚ) : ℝ) /
          Real.sqrt
            ((((s.controlDisks.getD (s.controlDisks.length - 1) default).center.x -
                (s.controlDisks.getD (s.controlDisks.length - 1 - 1) default).center.x : ℚ) : ℝ) *
              (((s.controlDisks.getD (s.controlDisks.length - 1) default).center.x -
                (s.controlDisks.getD (s.controlDisks.length - 1 - 1) default).center.x : ℚ) : ℝ) +
             (((s.controlDisks.getD (s.controlDisks.length - 1) default).center.y -
                (s.controlDisks.getD (s.controlDisks.length - 1 - 1) default).center.y : ℚ) : ℝ) *
              (((s.controlDisks.getD (s.controlDisks.length - 1) default).center.y -
                (s.controlDisks.getD (s.controlDisks.length - 1 - 1) default).center.y : ℚ) : ℝ)) }
    else d3ofQ (s.derivLoopSumQ (s.clampParam u))
  else if u ≤ s.kn s.degree then
    if 1 / 10000 < Real.sqrt
        ((((s.controlDisks.getD 1 default).center.x -
            (s.controlDisks.getD 0 default).center.x : ℚ) : ℝ) *
          (((s.controlDisks.getD 1 default).center.x -
            (s.controlDisks.getD 0 default).center.x : ℚ) : ℝ) +
         (((s.controlDisks.getD 1 default).center.y -
            (s.controlDisks.getD 0 default).center.y : ℚ) : ℝ) *
          (((s.controlDisks.getD 1 default).center.y -
            (s.controlDisks.getD 0 default).center.y : ℚ) : ℝ)) then
      { x := (((s.controlDisks.getD 1 default).center.x -
            (s.controlDisks.getD 0 default).center.x : ℚ) : ℝ) /
          Real.sqrt
            ((((s.controlDisks.getD 1 default).center.x -
                (s.controlDisks.getD 0 default).center.x : ℚ) : ℝ) *
              (((s.controlDisks.getD 1 default).center.x -
                (s.controlDisks.getD 0 default).center.x : ℚ) : ℝ) +
             (((s.controlDisks.getD 1 default).center.y -
                (s.controlDisks.getD 0 default).center.y : ℚ) : ℝ) *
              (((s.controlDisks.getD 1 default).center.y -
                (s.controlDisks.getD 0 default).center.y : ℚ) : ℝ))
        y := (((s.controlDisks.getD 1 default).center.y -
            (s.controlDisks.getD 0 default).center.y : ℚ) : ℝ) /
          Real.sqrt
            ((((s.controlDisks.getD 1 default).center.x -
                (s.controlDisks.getD 0 default).center.x : ℚ) : ℝ) *
              (((s.controlDisks.getD 1 default).center.x -
                (s.controlDisks.getD 0 default).center.x : ℚ) : ℝ) +
             (((s.controlDisks.getD 1 default).center.y -
                (s.controlDisks.getD 0 default).center.y : ℚ) : ℝ) *
              (((s.controlDisks.getD 1 default).center.y -
                (s.controlDisks.getD 0 default).center.y : ℚ) : ℝ))
        radiusRate := (((s.controlDisks.getD 1 default).radius -
            (s.controlDisks.getD 0 default).radius : ℚ) : ℝ) /
          Real.sqrt
            ((((s.controlDisks.getD 1 default).center.x -
                (s.controlDisks.getD 0 default).center.x : ℚ) : ℝ) *
              (((s.controlDisks.getD 1 default).center.x -
                (s.controlDisks.getD 0 default).center.x : ℚ) : ℝ) +
             (((s.controlDisks.getD 1 default).center.y -
                (s.controlDisks.getD 0 default).center.y : ℚ) : ℝ) *
              (((s.controlDisks.getD 1 default).center.y -
                (s.controlDisks.getD 0 default).center.y : ℚ) : ℝ)) }
    else d3ofQ (s.derivLoopSumQ (s.clampParam u))
  else d3ofQ (s.derivLoopSumQ (s.clampParam u))

/-- The method `calculateCurvatureAt(u)`: forward finite difference with
`ε = 1e-4` for the second derivative, curvature formula with the near-zero
denominator guard. -/
noncomputable def DiskBSpline.calculateCurvatureAt (s : DiskBSpline) (u : ℚ) : ℝ :=
  if 1 / 10000 <
      ((s.evaluateDerivativeAt u).x * (s.evaluateDerivativeAt u).x +
        (s.evaluateDerivativeAt u).y * (s.evaluateDerivativeAt u).y) ^ (1.5 : ℝ) then
    |(s.evaluateDerivativeAt u).x *
        (((s.evaluateDerivativeAt (u + 1 / 10000)).y - (s.evaluateDerivativeAt u).y) /
          (1 / 10000 : ℝ)) -
      (s.evaluateDerivativeAt u).y *
        (((s.evaluateDerivativeAt (u + 1 / 10000)).x - (s.evaluateDerivativeAt u).x) /
          (1 / 10000 : ℝ))| /
    ((s.evaluateDerivativeAt u).x * (s.evaluateDerivativeAt u).x +
      (s.evaluateDerivativeAt u).y * (s.evaluateDerivativeAt u).y) ^ (1.5 : ℝ)
  else 0

/-- The boosted base sample count of `sampleCurveAdaptive`:
`max(baseNumSamples, min(200, round(diskCount · 20)))` (the rounded product is
an integer, so `Math.round` is the identity on it). -/
def DiskBSpline.effectiveBase (s : DiskBSpline) (baseNumSamples : ℕ) : ℕ :=
  max baseNumSamples (min 200 (s.controlDisks.length * 20))

/-- The uniform first-pass parameter `startU + (i/(eb-1))·(endU - startU)`
(the source computes `endU` identically for open and closed shapes). -/
def DiskBSpline.uniformU (s : DiskBSpline) (eb i : ℕ) : ℚ :=
  s.kn s.degree + ((i : ℚ) / ((eb : ℚ) - 1)) *
    (s.kn (s.controlDisks.length - 1 + 1) - s.kn s.degree)

/-- First pass of `sampleCurveAdaptive`: the uniform samples `{u, disk}`. -/
def DiskBSpline.uniformSamples (s : DiskBSpline) (eb : ℕ) : List (ℚ × Disk) :=
  (List.range eb).map fun i => (s.uniformU eb i, s.evaluateAt (s.uniformU eb i))

/-- The curvature of each uniform sample (tracked alongside the first pass). -/
noncomputable def DiskBSpline.curvatureList (s : DiskBSpline) (eb : ℕ) : List ℝ :=
  (List.range eb).map fun i => s.calculateCurvatureAt (s.uniformU eb i)

/-- The normalized curvature `maxCurvature > 0 ? curvatures[i]/maxCurvature : 0`. -/
noncomputable def normCurv (curvs : List ℝ) (maxCurvature : ℝ) (i : ℕ) : ℝ :=
  if 0 < maxCurvature then curvs.getD i 0 / maxCurvature else 0

/-- The Euclidean distance between the centers of uniform samples `i` and
`i+1`. -/
noncomputable def segLength (us : List (ℚ × Disk)) (i : ℕ) : ℝ :=
  Real.sqrt
    ((((us.getD (i + 1) (0, default)).2.center.x -
        (us.getD i (0, default)).2.center.x : ℚ) : ℝ) *
      (((us.getD (i + 1) (0, default)).2.center.x -
        (us.getD i (0, default)).2.center.x : ℚ) : ℝ) +
     (((us.getD (i + 1) (0, default)).2.center.y -
        (us.getD i (0, default)).2.center.y : ℚ) : ℝ) *
      (((us.getD (i + 1) (0, default)).2.center.y -
        (us.getD i (0, default)).2.center.y : ℚ) : ℝ))

/-- The number of extra samples between samples `i` and `i+1`:
`min(4, ⌊normalizedCurvature · 4 · segmentLength/10⌋)`. -/
noncomputable def numExtraSamples (curvs : List ℝ) (maxCurvature : ℝ)
    (us : List (ℚ × Disk)) (i : ℕ) : ℕ :=
  (min 4 ⌊normCurv curvs maxCurvature i * 4 * (segLength us i / 10)⌋).toNat

/-- The extra samples inserted between samples `i` and `i+1`, evenly spaced
in parameter (`j = 1 … numExtraSamples`). -/
noncomputable def extraSamples (s : DiskBSpline) (us : List (ℚ × Disk))
    (curvs : List ℝ) (maxCurvature : ℝ) (i : ℕ) : List (ℚ × Disk) :=
  (List.range (numExtraSamples curvs maxCurvature us i)).map fun (j : ℕ) =>
    let u := (us.getD i (0, default)).1 +
      (((j : ℚ) + 1) / ((numExtraSamples curvs maxCurvature us i : ℚ) + 1)) *
        ((us.getD (i + 1) (0, default)).1 - (us.getD i (0, default)).1)
    (u, s.evaluateAt u)

/-- One iteration of the refinement loop of `sampleCurveAdaptive`: push the
uniform sample, then — if the normalized curvature exceeds `0.15`, the running
count is still below `maxNumSamples`, and the segment is longer than `0.5` —
push the extra samples. -/
noncomputable def sampleStep (s : DiskBSpline) (us : List (ℚ × Disk)) (curvs : List ℝ)
    (maxCurvature : ℝ) (maxNumSamples : ℕ) (acc : List (ℚ × Disk)) (i : ℕ) :
    List (ℚ × Disk) :=
  if (0.15 : ℝ) < normCurv curvs maxCurvature i ∧
      (acc ++ [us.getD i (0, default)]).length < maxNumSamples ∧
      (0.5 : ℝ) < segLength us i then
    (acc ++ [us.getD i (0, default)]) ++ extraSamples s us curvs maxCurvature i
  else acc ++ [us.getD i (0, default)]

/-- The refinement pass: fold `sampleStep` over `i = 0 … eb-2`. -/
noncomputable def DiskBSpline.adaptivePass (s : DiskBSpline) (eb maxNumSamples : ℕ) :
    List (ℚ × Disk) :=
  (List.range (eb - 1)).foldl
    (sampleStep s (s.uniformSamples eb) (s.curvatureList eb)
      ((s.curvatureList eb).foldl max 0) maxNumSamples) []

/-- The method `sampleCurveAdaptive(baseNumSamples, maxNumSamples)`: empty on
too few control points, else the refinement pass plus the final uniform
sample, projected to disks. -/
noncomputable def DiskBSpline.sampleCurveAdaptive (s : DiskBSpline)
    (baseNumSamples maxNumSamples : ℕ) : List Disk :=
  if s.controlDisks.length < s.degree + 1 then []
  else
    (s.adaptivePass (s.effectiveBase baseNumSamples) maxNumSamples ++
      [(s.uniformSamples (s.effectiveBase baseNumSamples)).getD
        (s.effectiveBase baseNumSamples - 1) (0, default)]).map Prod.snd

/-- One SVG path command of the subset `{M, L, A, Z}` the source emits. -/
inductive PathCmd where
  | move (p : ℝ × ℝ)
  | line (p : ℝ × ℝ)
  | arc (r : ℝ) (sweep : ℕ) (p : ℝ × ℝ)
  | close

/-- Whether a command is an elliptical-arc (`A`) command. -/
def PathCmd.isArc : PathCmd → Bool
  | .arc _ _ _ => true
  | _ => false

/-- Number of `A` commands in a path. -/
def countArcs (l : List PathCmd) : ℕ := (l.filter PathCmd.isArc).length

/-- Casting a rational point into real coordinates. -/
def ptR (p : Pt) : ℝ × ℝ := ((p.x : ℝ), (p.y : ℝ))

/-- The method `createSmoothPath(points)`: `M` then straight `L` segments
(with the source's separate two-point case). -/
def createSmoothPath (points : List Pt) : List PathCmd :=
  if points.length < 2 then []
  else if points.length = 2 then
    [PathCmd.move (ptR (points.getD 0 ⟨0, 0⟩)), PathCmd.line (ptR (points.getD 1 ⟨0, 0⟩))]
  else
    PathCmd.move (ptR (points.getD 0 ⟨0, 0⟩)) ::
      (points.drop 1).map (fun p => PathCmd.line (ptR p))

/-- The normals loop of `toSVGPath`: per sample the unit perpendicular of the
derivative, falling back to the previous normal (`(1,0)` at index 0) when the
derivative length is at most `1e-4`. -/
noncomputable def DiskBSpline.svgNormals (s : DiskBSpline) (startU pstep : ℚ)
    (count : ℕ) : List (ℝ × ℝ) :=
  (List.range count).foldl
    (fun acc (i : ℕ) =>
      acc ++ [
        if 1 / 10000 < Real.sqrt
            ((s.evaluateDerivativeAt (startU + (i : ℚ) * pstep)).x *
              (s.evaluateDerivativeAt (startU + (i : ℚ) * pstep)).x +
             (s.evaluateDerivativeAt (startU + (i : ℚ) * pstep)).y *
              (s.evaluateDerivativeAt (startU + (i : ℚ) * pstep)).y) then
          (-(s.evaluateDerivativeAt (startU + (i : ℚ) * pstep)).y /
              Real.sqrt
                ((s.evaluateDerivativeAt (startU + (i : ℚ) * pstep)).x *
                  (s.evaluateDerivativeAt (startU + (i : ℚ) * pstep)).x +
                 (s.evaluateDerivativeAt (startU + (i : ℚ) * pstep)).y *
                  (s.evaluateDerivativeAt (startU + (i : ℚ) * pstep)).y),
            (s.evaluateDerivativeAt (startU + (i : ℚ) * pstep)).x /
              Real.sqrt
                ((s.evaluateDerivativeAt (startU + (i : ℚ) * pstep)).x *
                  (s.evaluateDerivativeAt (startU + (i : ℚ) * pstep)).x +
                 (s.evaluateDerivativeAt (startU + (i : ℚ) * pstep)).y *
                  (s.evaluateDerivativeAt (startU + (i : ℚ) * pstep)).y))
        else if 0 < i then acc.getD (i - 1) (1, 0) else (1, 0)])
    []

/-- The full result record of `toSVGPath`. -/
structure SVGOut where
  fillPath : List PathCmd
  skeletonPath : List PathCmd
  disks : List Disk
  normals : List (ℝ × ℝ)

/-- The method `toSVGPath(numSamples)`: adaptive samples (with
`maxNumSamples = numSamples · 2`), per-sample normals, the two offset
boundaries, the start cap (arc when the first disk's radius is positive), the
end cap only when the shape is not closed, the reversed upper boundary, and
the closing `Z`. -/
noncomputable def DiskBSpline.toSVGPath (s : DiskBSpline) (numSamples : ℕ) : SVGOut :=
  let disks := s.sampleCurveAdaptive numSamples (numSamples * 2)
  if disks.length < 2 then ⟨[], [], [], []⟩
  else
    let startU := s.kn s.degree
    let endU := s.kn (s.controlDisks.length - 1 + 1)
    let pstep := (endU - startU) / ((disks.length : ℚ) - 1)
    let normals := s.svgNormals startU pstep disks.length
    let upperPoints := List.zipWith (fun dsk nv =>
      ((dsk.center.x : ℝ) + nv.1 * (dsk.radius : ℝ),
       (dsk.center.y : ℝ) + nv.2 * (dsk.radius : ℝ))) disks normals
    let lowerPoints := List.zipWith (fun dsk nv =>
      ((dsk.center.x : ℝ) - nv.1 * (dsk.radius : ℝ),
       (dsk.center.y : ℝ) - nv.2 * (dsk.radius : ℝ))) disks normals
    let firstDisk := disks.getD 0 default
    let lastDisk := disks.getD (disks.length - 1) default
    let firstNormal := normals.getD 0 (1, 0)
    let lastNormal := normals.getD (normals.length - 1) (1, 0)
    let firstTangent : ℝ × ℝ := (firstNormal.2, -firstNormal.1)
    let lastTangent : ℝ × ℝ := (lastNormal.2, -lastNormal.1)
    let upperFirst := upperPoints.getD 0 (0, 0)
    let lowerFirst := lowerPoints.getD 0 (0, 0)
    let upperLast := upperPoints.getD (upperPoints.length - 1) (0, 0)
    let lowerLast := lowerPoints.getD (lowerPoints.length - 1) (0, 0)
    let startCap : List PathCmd :=
      if 0 < firstDisk.radius then
        [PathCmd.move upperFirst,
         PathCmd.arc (firstDisk.radius : ℝ)
           (if 0 < firstTangent.1 * (upperFirst.2 - lowerFirst.2) -
               firstTangent.2 * (upperFirst.1 - lowerFirst.1) then 1 else 0)
           lowerFirst]
      else [PathCmd.move upperFirst, PathCmd.line lowerFirst]
    let endCap : List PathCmd :=
      if s.closed then []
      else if 0 < lastDisk.radius then
        [PathCmd.arc (lastDisk.radius : ℝ)
          (if 0 < lastTangent.1 * (lowerLast.2 - upperLast.2) -
              lastTangent.2 * (lowerLast.1 - upperLast.1) then 0 else 1)
          upperLast]
      else [PathCmd.line upperLast]
    { fillPath := startCap ++ (lowerPoints.drop 1).map PathCmd.line ++ endCap ++
        ((upperPoints.take (upperPoints.length - 1)).reverse).map PathCmd.line ++
        [PathCmd.close]
      skeletonPath := createSmoothPath (disks.map Disk.center)
      disks := disks
      normals := normals }

/-- The control-polygon length used by the parameterless `toSVGPath()` call. -/
noncomputable def DiskBSpline.controlPolygonLength (s : DiskBSpline) : ℝ :=
  ∑ i in Finset.range (s.controlDisks.length - 1),
    Real.sqrt
      ((((s.controlDisks.getD (i + 1) default).center.x -
          (s.controlDisks.getD i default).center.x : ℚ) : ℝ) *
        (((s.controlDisks.getD (i + 1) default).center.x -
          (s.controlDisks.getD i default).center.x : ℚ) : ℝ) +
       (((s.controlDisks.getD (i + 1) default).center.y -
          (s.controlDisks.getD i default).center.y : ℚ) : ℝ) *
        (((s.controlDisks.getD (i + 1) default).center.y -
          (s.controlDisks.getD i default).center.y : ℚ) : ℝ))

/-- The parameterless call `toSVGPath()` of the source: the base sample count
is `min(100, max(50, round(totalLength)))` over the control polygon length. -/
noncomputable def DiskBSpline.toSVGPathAuto (s : DiskBSpline) : SVGOut :=
  s.toSVGPath (min 100 (max 50 (round s.controlPolygonLength))).toNat

/-- Length of the finite difference between the centers of two disks. -/
noncomputable def fdLen (a b : Disk) : ℝ :=
  Real.sqrt
    (((b.center.x - a.center.x : ℚ) : ℝ) * ((b.center.x - a.center.x : ℚ) : ℝ) +
     ((b.center.y - a.center.y : ℚ) : ℝ) * ((b.center.y - a.center.y : ℚ) : ℝ))

/-! ## Theorems

Everything below is proved about the definitions above: first the pure
Cox–de Boor theory, then the lemmas about constructed splines, then the
claim theorems with their witnesses and counterexamples. -/

/-- The normalized finite-difference direction from disk `a` to disk `b`. -/
noncomputable def fdUnit (a b : Disk) : Deriv3 :=
  { x := ((b.center.x - a.center.x : ℚ) : ℝ) / fdLen a b
    y := ((b.center.y - a.center.y : ℚ) : ℝ) / fdLen a b
    radiusRate := ((b.radius - a.radius : ℚ) : ℝ) / fdLen a b }

theorem coxBasis_zero (kn : ℕ → ℚ) (i : ℕ) (u : ℚ) :
    coxBasis kn i 0 u = if kn i ≤ u ∧ u < kn (i + 1) then 1 else 0 := rfl

theorem coxBasis_succ (kn : ℕ → ℚ) (i k : ℕ) (u : ℚ) :
    coxBasis kn i (k + 1) u =
      (if kn (i + (k + 1)) - kn i ≠ 0 then
          (u - kn i) / (kn (i + (k + 1)) - kn i) else 0) *
        coxBasis kn i k u +
      (if kn (i + (k + 1) + 1) - kn (i + 1) ≠ 0 then
          (kn (i + (k + 1) + 1) - u) / (kn (i + (k + 1) + 1) - kn (i + 1)) else 0) *
        coxBasis kn (i + 1) k u := rfl

/-- Away from the open-shape last-knot special case, `basisFunction` is the
pure Cox–de Boor recursion on the spline's knot function. -/
theorem DiskBSpline.basisFunction_eq_cox (s : DiskBSpline) (u : ℚ)
    (h : s.closed = true ∨ u ≠ s.kn (s.knots.length - 1)) :
    ∀ k i, s.basisFunction i k u = coxBasis s.kn i k u := by
  intro k
  induction k with
  | zero =>
    intro i
    have hcond : ¬ (s.closed = false ∧ u = s.kn (s.knots.length - 1) ∧
        (i : ℤ) = (s.knots.length : ℤ) - 2) := by
      rcases h with h | h
      · rintro ⟨h1, -, -⟩; rw [h] at h1; simp at h1
      · rintro ⟨-, h2, -⟩; exact h h2
    simp only [basisFunction, coxBasis, if_neg hcond]
  | succ k ih =>
    intro i
    simp only [basisFunction, coxBasis, ih]

/-- Local support: the basis function vanishes outside `[kn i, kn (i+k+1))`. -/
theorem coxBasis_eq_zero (kn : ℕ → ℚ) (hkn : Monotone kn) (u : ℚ) :
    ∀ k i, u < kn i ∨ kn (i + k + 1) ≤ u → coxBasis kn i k u = 0 := by
  intro k
  induction k with
  | zero =>
    intro i h
    rw [coxBasis_zero, if_neg]
    rintro ⟨h1, h2⟩
    rcases h with h | h
    · exact absurd h1 (not_le.mpr h)
    · exact absurd h2 (not_lt.mpr h)
  | succ k ih =>
    intro i h
    have hz1 : coxBasis kn i k u = 0 := by
      refine ih i ?_
      rcases h with h | h
      · exact Or.inl h
      · exact Or.inr (le_trans (hkn (by omega : i + k + 1 ≤ i + (k + 1) + 1)) h)
    have hz2 : coxBasis kn (i + 1) k u = 0 := by
      refine ih (i + 1) ?_
      rcases h with h | h
      · exact Or.inl (lt_of_lt_of_le h (hkn (by omega : i ≤ i + 1)))
      · refine Or.inr ?_
        rw [show i + 1 + k + 1 = i + (k + 1) + 1 from by omega]
        exact h
    rw [coxBasis_succ, hz1, hz2, mul_zero, mul_zero, add_zero]

/-- Non-negativity of the basis functions for a monotone knot function. -/
theorem coxBasis_nonneg (kn : ℕ → ℚ) (hkn : Monotone kn) (u : ℚ) :
    ∀ k i, 0 ≤ coxBasis kn i k u := by
  intro k
  induction k with
  | zero =>
    intro i
    rw [coxBasis_zero]
    split <;> norm_num
  | succ k ih =>
    intro i
    rw [coxBasis_succ]
    have h1 : 0 ≤ (if kn (i + (k + 1)) - kn i ≠ 0 then
        (u - kn i) / (kn (i + (k + 1)) - kn i) else 0) * coxBasis kn i k u := by
      by_cases hu : u < kn i
      · rw [coxBasis_eq_zero kn hkn u k i (Or.inl hu), mul_zero]
      · push_neg at hu
        refine mul_nonneg ?_ (ih i)
        split
        · next hd =>
            have hle : kn i ≤ kn (i + (k + 1)) := hkn (by omega)
            exact div_nonneg (by linarith) (by linarith [lt_of_le_of_ne hle (by
              intro hx; exact hd (by rw [hx, sub_self]))])
        · exact le_refl 0
    have h2 : 0 ≤ (if kn (i + (k + 1) + 1) - kn (i + 1) ≠ 0 then
        (kn (i + (k + 1) + 1) - u) / (kn (i + (k + 1) + 1) - kn (i + 1)) else 0) *
        coxBasis kn (i + 1) k u := by
      by_cases hu : kn (i + (k + 1) + 1) ≤ u
      · rw [coxBasis_eq_zero kn hkn u k (i + 1) (Or.inr (by
          rw [show i + 1 + k + 1 = i + (k + 1) + 1 from by omega]; exact hu)), mul_zero]
      · push_neg at hu
        refine mul_nonneg ?_ (ih (i + 1))
        split
        · next hd =>
            have hle : kn (i + 1) ≤ kn (i + (k + 1) + 1) := hkn (by omega)
            exact div_nonneg (by linarith) (by linarith [lt_of_le_of_ne hle (by
              intro hx; exact hd (by rw [← hx, sub_self]))])
        · exact le_refl 0
    exact add_nonneg h1 h2

/-- Partition of unity on a non-degenerate span: if `kn j ≤ u < kn (j+1)`
with `k ≤ j`, the `k+1` basis functions with indices `j-k … j` sum to `1`. -/
theorem coxBasis_sum_Icc (kn : ℕ → ℚ) (hkn : Monotone kn) (u : ℚ) :
    ∀ k j, k ≤ j → kn j ≤ u → u < kn (j + 1) →
      ∑ i in Finset.Icc (j - k) j, coxBasis kn i k u = 1 := by
  intro k
  induction k with
  | zero =>
    intro j _ h1 h2
    rw [Nat.sub_zero, Finset.Icc_self, Finset.sum_singleton, coxBasis_zero,
      if_pos ⟨h1, h2⟩]
  | succ k ih =>
    intro j hkj h1 h2
    obtain ⟨t, rfl⟩ : ∃ t, j = t + (k + 1) := ⟨j - (k + 1), by omega⟩
    have hsub : t + (k + 1) - (k + 1) = t := by omega
    rw [hsub]
    -- abbreviations for the two coefficients with common denominator at m
    set P : ℕ → ℚ := fun m => if kn (m + (k + 1)) - kn m ≠ 0 then
      (u - kn m) / (kn (m + (k + 1)) - kn m) else 0 with hP
    set Q : ℕ → ℚ := fun m => if kn (m + (k + 1)) - kn m ≠ 0 then
      (kn (m + (k + 1)) - u) / (kn (m + (k + 1)) - kn m) else 0 with hQ
    have hrw : ∀ i, coxBasis kn i (k + 1) u =
        P i * coxBasis kn i k u + Q (i + 1) * coxBasis kn (i + 1) k u := by
      intro i
      rw [coxBasis_succ, hP, hQ]
      simp only []
      rw [show i + 1 + (k + 1) = i + (k + 1) + 1 from by omega]
    have hsplit :
        ∑ i in Finset.Icc t (t + (k + 1)), coxBasis kn i (k + 1) u =
          (∑ i in Finset.Icc t (t + (k + 1)), P i * coxBasis kn i k u) +
          ∑ i in Finset.Icc t (t + (k + 1)), Q (i + 1) * coxBasis kn (i + 1) k u := by
      rw [← Finset.sum_add_distrib]
      exact Finset.sum_congr rfl fun i _ => hrw i
    -- reindex the second sum to m = i + 1
    have hre :
        ∑ i in Finset.Icc t (t + (k + 1)), Q (i + 1) * coxBasis kn (i + 1) k u =
          ∑ m in Finset.Icc (t + 1) (t + (k + 1) + 1), Q m * coxBasis kn m k u := by
      rw [show Finset.Icc (t + 1) (t + (k + 1) + 1) =
        (Finset.Icc t (t + (k + 1))).map (addRightEmbedding 1) from by
          rw [Finset.map_add_right_Icc]]
      rw [Finset.sum_map]
      exact Finset.sum_congr rfl fun i _ => by simp [addRightEmbedding_apply]
    -- boundary terms vanish
    have hBt : coxBasis kn t k u = 0 := by
      refine coxBasis_eq_zero kn hkn u k t (Or.inr ?_)
      rw [show t + k + 1 = t + (k + 1) from by omega]
      exact h1
    have hBtop : coxBasis kn (t + (k + 1) + 1) k u = 0 :=
      coxBasis_eq_zero kn hkn u k _ (Or.inl (lt_of_lt_of_le h2 (hkn (by omega))))
    -- strip the bottom index from the P-sum
    have hbot : Finset.Icc t (t + (k + 1)) =
        insert t (Finset.Icc (t + 1) (t + (k + 1))) := by
      ext x; simp only [Finset.mem_Icc, Finset.mem_insert]; omega
    have hPsum :
        ∑ i in Finset.Icc t (t + (k + 1)), P i * coxBasis kn i k u =
          ∑ i in Finset.Icc (t + 1) (t + (k + 1)), P i * coxBasis kn i k u := by
      rw [hbot, Finset.sum_insert (by simp only [Finset.mem_Icc]; omega), hBt,
        mul_zero, zero_add]
    -- strip the top index from the Q-sum
    have hQsum :
        ∑ m in Finset.Icc (t + 1) (t + (k + 1) + 1), Q m * coxBasis kn m k u =
          ∑ m in Finset.Icc (t + 1) (t + (k + 1)), Q m * coxBasis kn m k u := by
      rw [Finset.sum_Icc_succ_top (by omega), hBtop, mul_zero, add_zero]
    rw [hsplit, hre, hPsum, hQsum, ← Finset.sum_add_distrib]
    have hone : ∀ m ∈ Finset.Icc (t + 1) (t + (k + 1)),
        P m * coxBasis kn m k u + Q m * coxBasis kn m k u = coxBasis kn m k u := by
      intro m _
      by_cases hD : kn (m + (k + 1)) - kn m = 0
      · have hBm : coxBasis kn m k u = 0 := by
          refine coxBasis_eq_zero kn hkn u k m ?_
          rcases lt_or_le u (kn m) with h | h
          · exact Or.inl h
          · refine Or.inr ?_
            rw [show m + k + 1 = m + (k + 1) from by omega]
            linarith [sub_eq_zero.mp hD]
        rw [hBm, mul_zero, mul_zero, add_zero]
      · rw [hP, hQ]
        simp only [if_pos hD]
        rw [← add_mul, div_add_div_same]
        rw [show u - kn m + (kn (m + (k + 1)) - u) = kn (m + (k + 1)) - kn m from by ring]
        rw [div_self hD, one_mul]
    rw [Finset.sum_congr rfl hone]
    have := ih (t + (k + 1)) (by omega) h1 h2
    rw [show t + (k + 1) - k = t + 1 from by omega] at this
    exact this

/-- Partition of unity over the full index range `0 … n`: outside the active
window the basis functions vanish, so the whole sum is `1`. -/
theorem coxBasis_sum_range (kn : ℕ → ℚ) (hkn : Monotone kn) (u : ℚ)
    (k n j : ℕ) (hkj : k ≤ j) (hjn : j ≤ n) (h1 : kn j ≤ u) (h2 : u < kn (j + 1)) :
    ∑ i in Finset.range (n + 1), coxBasis kn i k u = 1 := by
  rw [← coxBasis_sum_Icc kn hkn u k j hkj h1 h2]
  symm
  refine Finset.sum_subset ?_ ?_
  · intro x hx
    simp only [Finset.mem_Icc] at hx
    simp only [Finset.mem_range]
    omega
  · intro x hx hnx
    simp only [Finset.mem_Icc, not_and, not_le] at hnx
    simp only [Finset.mem_range] at hx
    rcases lt_or_le x (j - k) with hlt | hge
    · refine coxBasis_eq_zero kn hkn u k x (Or.inr (le_trans (hkn ?_) h1))
      omega
    · exact coxBasis_eq_zero kn hkn u k x
        (Or.inl (lt_of_lt_of_le h2 (hkn (by omega : j + 1 ≤ x))))

/-- Value of the basis functions at the left end of a clamped knot vector:
if the first `k+1` knots all equal `a` and `kn (k+1) > a`, then at `u = a`
the level-`m` basis functions are the indicator of index `k - m`. -/
theorem coxBasis_left_endpoint (kn : ℕ → ℚ) (hkn : Monotone kn) (k : ℕ) (a : ℚ)
    (hflat : ∀ i, i ≤ k → kn i = a) (hnext : a < kn (k + 1)) :
    ∀ m, m ≤ k → ∀ i, coxBasis kn i m a = if i = k - m then 1 else 0 := by
  have hD : kn (k + 1) - a ≠ 0 := by
    intro hx; rw [sub_eq_zero] at hx; exact absurd hx.symm (ne_of_lt hnext)
  intro m
  induction m with
  | zero =>
    intro _ i
    rw [coxBasis_zero]
    rcases lt_trichotomy i k with h | h | h
    · have hne : ¬ (i = k - 0) := by omega
      have hind : ¬ (kn i ≤ a ∧ a < kn (i + 1)) := by
        rintro ⟨-, h2⟩
        rw [hflat (i + 1) (by omega)] at h2
        exact lt_irrefl a h2
      rw [if_neg hind, if_neg hne]
    · subst h
      have heq : i = i - 0 := by omega
      rw [if_pos ⟨le_of_eq (hflat i le_rfl), hnext⟩, if_pos heq]
    · have hne : ¬ (i = k - 0) := by omega
      have hind : ¬ (kn i ≤ a ∧ a < kn (i + 1)) := by
        rintro ⟨h1, -⟩
        exact absurd h1 (not_le.mpr (lt_of_lt_of_le hnext (hkn (by omega))))
      rw [if_neg hind, if_neg hne]
  | succ m ih =>
    intro hm i
    have ihm := ih (by omega)
    rw [coxBasis_succ, ihm i, ihm (i + 1)]
    by_cases hc : i = k - (m + 1)
    · -- the surviving term: coefficient of the second basis value is 1
      have h1 : ¬ (i = k - m) := by omega
      have h2 : i + 1 = k - m := by omega
      rw [if_neg h1, if_pos h2, if_pos hc, mul_zero, zero_add, mul_one]
      have hidx : i + (m + 1) + 1 = k + 1 := by omega
      have hkni1 : kn (i + 1) = a := hflat (i + 1) (by omega)
      rw [hidx, hkni1, if_pos hD, div_self hD]
    · by_cases hc2 : i = k - m
      · -- first indicator true but its coefficient has a zero numerator
        have h2 : ¬ (i + 1 = k - m) := by omega
        rw [if_pos hc2, if_neg h2, if_neg hc, mul_zero, add_zero, mul_one]
        have hkni : kn i = a := hflat i (by omega)
        split
        · rw [hkni, sub_self, zero_div]
        · rfl
      · have h2 : ¬ (i + 1 = k - m) := by omega
        rw [if_neg hc2, if_neg h2, if_neg hc, mul_zero, mul_zero, add_zero]

theorem openKnotQ_mono (n k : ℕ) (h : k ≤ n) : Monotone (openKnotQ n k) := by
  intro a b hab
  unfold openKnotQ
  have : openKnotZ n k a ≤ openKnotZ n k b := by
    unfold openKnotZ; split_ifs <;> omega
  exact_mod_cast this

theorem closedKnotQ_mono (k : ℕ) : Monotone (closedKnotQ k) := by
  intro a b hab
  unfold closedKnotQ closedKnotZ
  have : (a : ℤ) - k ≤ (b : ℤ) - k := by omega
  exact_mod_cast this

/-- Existence of the active span for the open knot formula. -/
theorem openKnotQ_span (n k : ℕ) (hnk : k ≤ n) (u : ℚ) (h1 : 0 ≤ u)
    (h2 : u < (n : ℚ) - k + 1) :
    ∃ j, k ≤ j ∧ j ≤ n ∧ openKnotQ n k j ≤ u ∧ u < openKnotQ n k (j + 1) := by
  have hfl : 0 ≤ ⌊u⌋ := Int.floor_nonneg.mpr h1
  have hfl2 : (⌊u⌋ : ℚ) ≤ u := Int.floor_le u
  have hfl3 : u < ⌊u⌋ + 1 := Int.lt_floor_add_one u
  have hub : ⌊u⌋ ≤ (n : ℤ) - k := by
    have h3 : (⌊u⌋ : ℚ) < (n : ℚ) - k + 1 := lt_of_le_of_lt hfl2 h2
    have h4 : (⌊u⌋ : ℚ) < ((n : ℤ) - k + 1 : ℤ) := by push_cast; linarith
    have h5 : ⌊u⌋ < (n : ℤ) - k + 1 := by exact_mod_cast h4
    omega
  refine ⟨k + (⌊u⌋).toNat, by omega, by omega, ?_, ?_⟩
  · have hval : openKnotZ n k (k + (⌊u⌋).toNat) = ⌊u⌋ := by
      unfold openKnotZ; split_ifs <;> omega
    unfold openKnotQ
    rw [hval]
    exact hfl2
  · by_cases hj : n < k + (⌊u⌋).toNat + 1
    · have hval : openKnotZ n k (k + (⌊u⌋).toNat + 1) = (n : ℤ) - k + 1 := by
        unfold openKnotZ; split_ifs <;> omega
      unfold openKnotQ
      rw [hval]
      push_cast
      exact h2
    · have hval : openKnotZ n k (k + (⌊u⌋).toNat + 1) = ⌊u⌋ + 1 := by
        unfold openKnotZ; split_ifs <;> omega
      unfold openKnotQ
      rw [hval]
      push_cast
      exact hfl3

/-- Existence of the active span for the closed knot formula. -/
theorem closedKnotQ_span (n k : ℕ) (hnk : k ≤ n) (u : ℚ) (h1 : 0 ≤ u)
    (h2 : u < (n : ℚ) + 1 - k) :
    ∃ j, k ≤ j ∧ j ≤ n ∧ closedKnotQ k j ≤ u ∧ u < closedKnotQ k (j + 1) := by
  have hfl : 0 ≤ ⌊u⌋ := Int.floor_nonneg.mpr h1
  have hfl2 : (⌊u⌋ : ℚ) ≤ u := Int.floor_le u
  have hfl3 : u < ⌊u⌋ + 1 := Int.lt_floor_add_one u
  have hub : ⌊u⌋ ≤ (n : ℤ) - k := by
    have h4 : (⌊u⌋ : ℚ) < ((n : ℤ) - k + 1 : ℤ) := by push_cast; linarith
    have h5 : ⌊u⌋ < (n : ℤ) - k + 1 := by exact_mod_cast h4
    omega
  refine ⟨k + (⌊u⌋).toNat, by omega, by omega, ?_, ?_⟩
  · have hval : closedKnotZ k (k + (⌊u⌋).toNat) = ⌊u⌋ := by
      unfold closedKnotZ; omega
    unfold closedKnotQ
    rw [hval]
    exact hfl2
  · have hval : closedKnotZ k (k + (⌊u⌋).toNat + 1) = ⌊u⌋ + 1 := by
      unfold closedKnotZ; omega
    unfold closedKnotQ
    rw [hval]
    push_cast
    exact hfl3

/-- Two knot functions agreeing on the window `[i, i+k+1]` give the same
basis value; the recursion only reads knots in that window. -/
theorem coxBasis_congr (kn kn' : ℕ → ℚ) (u : ℚ) :
    ∀ k i, (∀ j, j ≤ i + k + 1 → kn j = kn' j) →
      coxBasis kn i k u = coxBasis kn' i k u := by
  intro k
  induction k with
  | zero =>
    intro i hagree
    rw [coxBasis_zero, coxBasis_zero, hagree i (by omega), hagree (i + 1) (by omega)]
  | succ k ih =>
    intro i hagree
    rw [coxBasis_succ, coxBasis_succ,
      hagree i (by omega), hagree (i + 1) (by omega),
      hagree (i + (k + 1)) (by omega), hagree (i + (k + 1) + 1) (by omega),
      ih i (fun j hj => hagree j (by omega)),
      ih (i + 1) (fun j hj => hagree j (by omega))]

/-! ### Facts about the constructed spline -/

theorem generateUniformKnots_degree (s : DiskBSpline) :
    s.generateUniformKnots.degree = s.degree := by
  unfold DiskBSpline.generateUniformKnots; split <;> rfl

theorem generateUniformKnots_closed (s : DiskBSpline) :
    s.generateUniformKnots.closed = s.closed := by
  unfold DiskBSpline.generateUniformKnots; split <;> rfl

theorem generateUniformKnots_controlDisks (s : DiskBSpline) :
    s.generateUniformKnots.controlDisks = s.controlDisks := by
  unfold DiskBSpline.generateUniformKnots; split <;> rfl

theorem mkDiskBSpline_degree (d : List Disk) (k : ℕ) (c : Bool) :
    (mkDiskBSpline d k c).degree = k := by
  unfold mkDiskBSpline; rw [generateUniformKnots_degree]

theorem mkDiskBSpline_closed (d : List Disk) (k : ℕ) (c : Bool) :
    (mkDiskBSpline d k c).closed = c := by
  unfold mkDiskBSpline; rw [generateUniformKnots_closed]

theorem mkDiskBSpline_controlDisks (d : List Disk) (k : ℕ) (c : Bool) :
    (mkDiskBSpline d k c).controlDisks = wrapDisks d k c := by
  unfold mkDiskBSpline; rw [generateUniformKnots_controlDisks]

theorem mkDiskBSpline_knots (d : List Disk) (k : ℕ) (c : Bool)
    (h : k + 1 ≤ (wrapDisks d k c).length) :
    (mkDiskBSpline d k c).knots =
      (List.range ((wrapDisks d k c).length + k + 1)).map
        (fun i => if c = true then closedKnotQ k i
          else openKnotQ ((wrapDisks d k c).length - 1) k i) := by
  unfold mkDiskBSpline DiskBSpline.generateUniformKnots
  have hguard : ¬ (((wrapDisks d k c).length : ℤ) - 1 < (k : ℤ)) := by
    have := h; omega
  simp only [hguard, if_false]
  cases c <;> simp [closedKnotQ, openKnotQ]

theorem mkDiskBSpline_knots_length (d : List Disk) (k : ℕ) (c : Bool)
    (h : k + 1 ≤ (wrapDisks d k c).length) :
    (mkDiskBSpline d k c).knots.length = (wrapDisks d k c).length + k + 1 := by
  rw [mkDiskBSpline_knots d k c h]; simp

/-- Knot access on the constructed spline is the pure knot formula on all
in-range indices. -/
theorem mkDiskBSpline_kn (d : List Disk) (k : ℕ) (c : Bool)
    (h : k + 1 ≤ (wrapDisks d k c).length) (j : ℕ)
    (hj : j < (wrapDisks d k c).length + k + 1) :
    (mkDiskBSpline d k c).kn j =
      if c = true then closedKnotQ k j
      else openKnotQ ((wrapDisks d k c).length - 1) k j := by
  unfold DiskBSpline.kn
  rw [mkDiskBSpline_knots d k c h]
  have hlen : j < ((List.range ((wrapDisks d k c).length + k + 1)).map
      (fun i => if c = true then closedKnotQ k i
        else openKnotQ ((wrapDisks d k c).length - 1) k i)).length := by
    simpa using hj
  rw [List.getD_eq_getElem _ _ hlen]
  simp

/-- On the constructed spline, away from the open-shape last-knot value,
`basisFunction` computes the pure recursion over the knot formula whenever
the index window stays inside the knot list. -/
theorem mkDiskBSpline_basis (d : List Disk) (k : ℕ) (c : Bool)
    (h : k + 1 ≤ (wrapDisks d k c).length) (u : ℚ)
    (hne : c = true ∨ u ≠ (mkDiskBSpline d k c).kn ((mkDiskBSpline d k c).knots.length - 1))
    (i k' : ℕ) (hw : i + k' + 1 ≤ (wrapDisks d k c).length + k) :
    (mkDiskBSpline d k c).basisFunction i k' u =
      coxBasis (fun j => if c = true then closedKnotQ k j
        else openKnotQ ((wrapDisks d k c).length - 1) k j) i k' u := by
  rw [DiskBSpline.basisFunction_eq_cox (mkDiskBSpline d k c) u ?_ k' i]
  · exact coxBasis_congr _ _ u k' i fun j hj =>
      mkDiskBSpline_kn d k c h j (by omega)
  · rcases hne with hc | hu
    · exact Or.inl (by rw [mkDiskBSpline_closed, hc])
    · exact Or.inr hu

/-- The value `knots[degree]` of the constructed spline is `0`. -/
theorem mkDiskBSpline_kn_degree (d : List Disk) (k : ℕ) (c : Bool)
    (h : k + 1 ≤ (wrapDisks d k c).length) :
    (mkDiskBSpline d k c).kn k = 0 := by
  rw [mkDiskBSpline_kn d k c h k (by omega)]
  cases c <;> simp [closedKnotQ, closedKnotZ, openKnotQ, openKnotZ]

/-- The value `knots[n+1]` of the constructed spline, as a rational. -/
theorem mkDiskBSpline_kn_top (d : List Disk) (k : ℕ) (c : Bool)
    (h : k + 1 ≤ (wrapDisks d k c).length) :
    (mkDiskBSpline d k c).kn ((wrapDisks d k c).length - 1 + 1) =
      ((wrapDisks d k c).length : ℚ) - k := by
  have hlen : 1 ≤ (wrapDisks d k c).length := by omega
  rw [mkDiskBSpline_kn d k c h _ (by omega)]
  cases c
  · have hv : openKnotZ ((wrapDisks d k false).length - 1) k
        ((wrapDisks d k false).length - 1 + 1) =
        ((wrapDisks d k false).length : ℤ) - k := by
      unfold openKnotZ; split_ifs <;> omega
    simp only [Bool.false_eq_true, if_false, openKnotQ]
    rw [hv]
    push_cast
    ring
  · have hv : closedKnotZ k ((wrapDisks d k true).length - 1 + 1) =
        ((wrapDisks d k true).length : ℤ) - k := by
      unfold closedKnotZ; omega
    simp only [if_pos rfl, closedKnotQ]
    rw [hv]
    push_cast
    ring

/-- Partition of unity on the constructed spline: the basis functions over
indices `0 … n` sum to `1` for every `u` with `knots[degree] ≤ u < knots[n+1]`
(both open and closed shapes). -/
theorem mkDiskBSpline_sum_basis (d : List Disk) (k : ℕ) (c : Bool)
    (h : k + 1 ≤ (wrapDisks d k c).length) (u : ℚ)
    (h1 : (mkDiskBSpline d k c).kn k ≤ u)
    (h2 : u < (mkDiskBSpline d k c).kn ((wrapDisks d k c).length - 1 + 1)) :
    ∑ i in Finset.range ((wrapDisks d k c).length - 1 + 1),
      (mkDiskBSpline d k c).basisFunction i k u = 1 := by
  have hlen : 1 ≤ (wrapDisks d k c).length := by omega
  have hnk : k ≤ (wrapDisks d k c).length - 1 := by omega
  have h0 : (0 : ℚ) ≤ u := by rw [← mkDiskBSpline_kn_degree d k c h]; exact h1
  have htop : u < ((wrapDisks d k c).length : ℚ) - k := by
    rw [← mkDiskBSpline_kn_top d k c h]; exact h2
  have hne : c = true ∨
      u ≠ (mkDiskBSpline d k c).kn ((mkDiskBSpline d k c).knots.length - 1) := by
    cases c
    · refine Or.inr ?_
      rw [mkDiskBSpline_knots_length d k false h]
      have hidx : (wrapDisks d k false).length + k + 1 - 1 =
          (wrapDisks d k false).length + k := by omega
      rw [hidx, mkDiskBSpline_kn d k false h _ (by omega)]
      have hv : openKnotZ ((wrapDisks d k false).length - 1) k
          ((wrapDisks d k false).length + k) =
          ((wrapDisks d k false).length : ℤ) - k := by
        unfold openKnotZ; split_ifs <;> omega
      simp only [Bool.false_eq_true, if_false, openKnotQ]
      rw [hv]
      intro hx
      rw [hx] at htop
      push_cast at htop
      exact lt_irrefl _ htop
    · exact Or.inl rfl
  rw [Finset.sum_congr rfl fun i hi =>
    mkDiskBSpline_basis d k c h u hne i k (by
      simp only [Finset.mem_range] at hi; omega)]
  cases c
  · have hfn : (fun j => if (false : Bool) = true then closedKnotQ k j
        else openKnotQ ((wrapDisks d k false).length - 1) k j) =
        openKnotQ ((wrapDisks d k false).length - 1) k := by
      funext j; simp
    rw [hfn]
    have hmono := openKnotQ_mono ((wrapDisks d k false).length - 1) k hnk
    obtain ⟨j, hj1, hj2, hj3, hj4⟩ := openKnotQ_span ((wrapDisks d k false).length - 1) k
      hnk u h0 (by rw [Nat.cast_sub hlen]; push_cast; linarith)
    exact coxBasis_sum_range _ hmono u k _ j hj1 hj2 hj3 hj4
  · have hfn : (fun j => if (true : Bool) = true then closedKnotQ k j
        else openKnotQ ((wrapDisks d k true).length - 1) k j) = closedKnotQ k := by
      funext j; simp
    rw [hfn]
    obtain ⟨j, hj1, hj2, hj3, hj4⟩ := closedKnotQ_span ((wrapDisks d k true).length - 1) k
      hnk u h0 (by rw [Nat.cast_sub hlen]; push_cast; linarith)
    exact coxBasis_sum_range _ (closedKnotQ_mono k) u k _ j hj1 hj2 hj3 hj4

/-- For a non-negative dividend and positive divisor, the JS remainder is the
true modulus: `jsMod x p = p * fract (x/p)`. -/
theorem jsMod_eq_fract (x p : ℚ) (hx : 0 ≤ x) (hp : 0 < p) :
    jsMod x p = p * Int.fract (x / p) := by
  unfold jsMod ratTrunc
  rw [if_pos (div_nonneg hx hp.le), Int.fract]
  field_simp

theorem jsMod_nonneg (x p : ℚ) (hx : 0 ≤ x) (hp : 0 < p) : 0 ≤ jsMod x p := by
  rw [jsMod_eq_fract x p hx hp]
  exact mul_nonneg hp.le (Int.fract_nonneg _)

theorem jsMod_lt (x p : ℚ) (hx : 0 ≤ x) (hp : 0 < p) : jsMod x p < p := by
  rw [jsMod_eq_fract x p hx hp]
  calc p * Int.fract (x / p) < p * 1 :=
        mul_lt_mul_of_pos_left (Int.fract_lt_one _) hp
    _ = p := mul_one p

theorem jsMod_add_period (x p : ℚ) (hx : 0 ≤ x) (hp : 0 < p) :
    jsMod (x + p) p = jsMod x p := by
  rw [jsMod_eq_fract x p hx hp, jsMod_eq_fract (x + p) p (by linarith) hp]
  have hdiv : (x + p) / p = x / p + 1 := by field_simp
  rw [hdiv, show (1 : ℚ) = ((1 : ℤ) : ℚ) from by norm_num, Int.fract_add_int]

/-- The knot formula attached to a constructed spline is monotone. -/
theorem mkKnotF_mono (d : List Disk) (k : ℕ) (c : Bool)
    (h : k + 1 ≤ (wrapDisks d k c).length) :
    Monotone (fun j => if c = true then closedKnotQ k j
      else openKnotQ ((wrapDisks d k c).length - 1) k j) := by
  cases c
  · simpa using openKnotQ_mono ((wrapDisks d k false).length - 1) k (by omega)
  · simpa using closedKnotQ_mono k

/-- Basis functions of the constructed spline are non-negative below the last
knot value (and everywhere for closed shapes). -/
theorem mkDiskBSpline_basis_nonneg (d : List Disk) (k : ℕ) (c : Bool)
    (h : k + 1 ≤ (wrapDisks d k c).length) (u : ℚ)
    (hne : c = true ∨ u ≠ (mkDiskBSpline d k c).kn ((mkDiskBSpline d k c).knots.length - 1))
    (i : ℕ) (hi : i + k + 1 ≤ (wrapDisks d k c).length + k) :
    0 ≤ (mkDiskBSpline d k c).basisFunction i k u := by
  rw [mkDiskBSpline_basis d k c h u hne i k hi]
  exact coxBasis_nonneg _ (mkKnotF_mono d k c h) u k i

/-- On an open constructed spline, the basis functions at `u = 0` are the
indicator of index `0` (the clamped left endpoint). -/
theorem mkDiskBSpline_basis_at_start (d : List Disk) (k : ℕ)
    (h : k + 1 ≤ (wrapDisks d k false).length) (i : ℕ)
    (hi : i + k + 1 ≤ (wrapDisks d k false).length + k) :
    (mkDiskBSpline d k false).basisFunction i k 0 = if i = 0 then 1 else 0 := by
  have hlen : 1 ≤ (wrapDisks d k false).length := by omega
  have hnk : k ≤ (wrapDisks d k false).length - 1 := by omega
  have hne : (false : Bool) = true ∨
      (0 : ℚ) ≠ (mkDiskBSpline d k false).kn ((mkDiskBSpline d k false).knots.length - 1) := by
    refine Or.inr ?_
    rw [mkDiskBSpline_knots_length d k false h]
    have hidx : (wrapDisks d k false).length + k + 1 - 1 =
        (wrapDisks d k false).length + k := by omega
    rw [hidx, mkDiskBSpline_kn d k false h _ (by omega)]
    have hv : openKnotZ ((wrapDisks d k false).length - 1) k
        ((wrapDisks d k false).length + k) =
        ((wrapDisks d k false).length : ℤ) - k := by
      unfold openKnotZ; split_ifs <;> omega
    simp only [Bool.false_eq_true, if_false, openKnotQ]
    rw [hv]
    intro hx
    have : ((wrapDisks d k false).length : ℤ) - k = 0 := by exact_mod_cast hx.symm
    omega
  rw [mkDiskBSpline_basis d k false h 0 hne i k hi]
  have hfn : (fun j => if (false : Bool) = true then closedKnotQ k j
      else openKnotQ ((wrapDisks d k false).length - 1) k j) =
      openKnotQ ((wrapDisks d k false).length - 1) k := by
    funext j; simp
  rw [hfn]
  have hflat : ∀ j, j ≤ k → openKnotQ ((wrapDisks d k false).length - 1) k j = 0 := by
    intro j hj
    unfold openKnotQ openKnotZ
    rw [if_pos (by omega)]
    norm_num
  have hnext : (0 : ℚ) < openKnotQ ((wrapDisks d k false).length - 1) k (k + 1) := by
    unfold openKnotQ openKnotZ
    have : (if k + 1 < k + 1 then (0 : ℤ)
        else if (wrapDisks d k false).length - 1 < k + 1 then
          ((wrapDisks d k false).length - 1 : ℕ) - k + 1 else (k + 1 : ℕ) - k) = 1 := by
      split_ifs <;> omega
    rw [this]
    norm_num
  have := coxBasis_left_endpoint (openKnotQ ((wrapDisks d k false).length - 1) k)
    (openKnotQ_mono _ k hnk) k 0 hflat hnext k le_rfl i
  rw [this, Nat.sub_self]

/-! ### Evaluation lemmas on the constructed spline -/

theorem wrapDisks_false (d : List Disk) (k : ℕ) : wrapDisks d k false = d := by
  unfold wrapDisks
  rw [if_neg]
  simp

theorem mkDiskBSpline_not_insufficient (d : List Disk) (k : ℕ) (c : Bool)
    (h : k + 1 ≤ (wrapDisks d k c).length) :
    ¬ ((mkDiskBSpline d k c).controlDisks.length < (mkDiskBSpline d k c).degree + 1) := by
  rw [mkDiskBSpline_controlDisks, mkDiskBSpline_degree]
  omega

/-- A parameter strictly below `knots[n+1]` differs from the last knot value,
so the basis special case cannot fire. -/
theorem mkDiskBSpline_ne_last (d : List Disk) (k : ℕ) (c : Bool)
    (h : k + 1 ≤ (wrapDisks d k c).length) (u : ℚ)
    (h2 : u < (mkDiskBSpline d k c).kn ((wrapDisks d k c).length - 1 + 1)) :
    c = true ∨ u ≠ (mkDiskBSpline d k c).kn ((mkDiskBSpline d k c).knots.length - 1) := by
  cases c
  · refine Or.inr ?_
    rw [mkDiskBSpline_kn_top d k false h] at h2
    rw [mkDiskBSpline_knots_length d k false h]
    have hidx : (wrapDisks d k false).length + k + 1 - 1 =
        (wrapDisks d k false).length + k := by omega
    rw [hidx, mkDiskBSpline_kn d k false h _ (by omega)]
    have hv : openKnotZ ((wrapDisks d k false).length - 1) k
        ((wrapDisks d k false).length + k) =
        ((wrapDisks d k false).length : ℤ) - k := by
      unfold openKnotZ; split_ifs <;> omega
    simp only [Bool.false_eq_true, if_false, openKnotQ]
    rw [hv]
    intro hx
    rw [hx] at h2
    push_cast at h2
    exact lt_irrefl _ h2
  · exact Or.inl rfl

/-- Convex-combination bounds for the radius of `diskSum` on the curve's
parameter domain. -/
theorem mkDiskBSpline_diskSum_radius (d : List Disk) (k : ℕ) (c : Bool)
    (h : k + 1 ≤ (wrapDisks d k c).length) (u : ℚ)
    (h1 : (mkDiskBSpline d k c).kn k ≤ u)
    (h2 : u < (mkDiskBSpline d k c).kn ((wrapDisks d k c).length - 1 + 1))
    (m M : ℚ) (hr : ∀ dsk ∈ wrapDisks d k c, m ≤ dsk.radius ∧ dsk.radius ≤ M) :
    m ≤ ((mkDiskBSpline d k c).diskSum u).radius ∧
      ((mkDiskBSpline d k c).diskSum u).radius ≤ M := by
  have hne := mkDiskBSpline_ne_last d k c h u h2
  have hsum := mkDiskBSpline_sum_basis d k c h u h1 h2
  have hlen0 : 1 ≤ (wrapDisks d k c).length := by omega
  have hmem : ∀ i ∈ Finset.range ((wrapDisks d k c).length - 1 + 1),
      ((mkDiskBSpline d k c).controlDisks.getD i default) ∈ wrapDisks d k c := by
    intro i hi
    simp only [Finset.mem_range] at hi
    rw [mkDiskBSpline_controlDisks]
    rw [List.getD_eq_getElem _ _ (by omega)]
    exact List.getElem_mem _
  have hw0 : ∀ i ∈ Finset.range ((wrapDisks d k c).length - 1 + 1),
      0 ≤ (mkDiskBSpline d k c).basisFunction i k u := by
    intro i hi
    simp only [Finset.mem_range] at hi
    exact mkDiskBSpline_basis_nonneg d k c h u hne i (by omega)
  have hrad : ((mkDiskBSpline d k c).diskSum u).radius =
      ∑ i in Finset.range ((wrapDisks d k c).length - 1 + 1),
        (mkDiskBSpline d k c).basisFunction i k u *
          ((mkDiskBSpline d k c).controlDisks.getD i default).radius := by
    unfold DiskBSpline.diskSum
    rw [mkDiskBSpline_controlDisks, mkDiskBSpline_degree]
  constructor
  · have hm : m = ∑ i in Finset.range ((wrapDisks d k c).length - 1 + 1),
        (mkDiskBSpline d k c).basisFunction i k u * m := by
      rw [← Finset.sum_mul, hsum, one_mul]
    rw [hrad, hm]
    refine Finset.sum_le_sum ?_
    intro i hi
    exact mul_le_mul_of_nonneg_left ((hr _ (hmem i hi)).1) (hw0 i hi)
  · have hM : M = ∑ i in Finset.range ((wrapDisks d k c).length - 1 + 1),
        (mkDiskBSpline d k c).basisFunction i k u * M := by
      rw [← Finset.sum_mul, hsum, one_mul]
    rw [hrad, hM]
    refine Finset.sum_le_sum ?_
    intro i hi
    exact mul_le_mul_of_nonneg_left ((hr _ (hmem i hi)).2) (hw0 i hi)

/-- Open-shape short-circuit: `evaluateAt` at any `u ≥ knots[n+1]` is the last
control disk, without basis evaluation. -/
theorem mkDiskBSpline_evaluateAt_last (d : List Disk) (k : ℕ)
    (h : k + 1 ≤ d.length) (u : ℚ)
    (hu : (mkDiskBSpline d k false).kn (d.length - 1 + 1) ≤ u) :
    (mkDiskBSpline d k false).evaluateAt u = d.getD (d.length - 1) default := by
  have hwrap := wrapDisks_false d k
  unfold DiskBSpline.evaluateAt
  rw [if_neg (mkDiskBSpline_not_insufficient d k false (by rw [hwrap]; exact h))]
  rw [mkDiskBSpline_closed]
  simp only [Bool.false_eq_true, if_false]
  rw [mkDiskBSpline_controlDisks, hwrap, if_pos hu]

/-- Open-shape left endpoint: `evaluateAt knots[degree] = evaluateAt 0` is the
first control disk. -/
theorem mkDiskBSpline_evaluateAt_start (d : List Disk) (k : ℕ)
    (h : k + 1 ≤ d.length) :
    (mkDiskBSpline d k false).evaluateAt 0 = d.getD 0 default := by
  have hwrap := wrapDisks_false d k
  have h' : k + 1 ≤ (wrapDisks d k false).length := by rw [hwrap]; exact h
  have hlen : 1 ≤ d.length := by omega
  have htop : (0 : ℚ) < (mkDiskBSpline d k false).kn ((wrapDisks d k false).length - 1 + 1) := by
    rw [mkDiskBSpline_kn_top d k false h', hwrap]
    have : (k : ℚ) + 1 ≤ (d.length : ℚ) := by exact_mod_cast h
    linarith
  unfold DiskBSpline.evaluateAt
  rw [if_neg (mkDiskBSpline_not_insufficient d k false h')]
  rw [mkDiskBSpline_closed]
  simp only [Bool.false_eq_true, if_false]
  rw [mkDiskBSpline_controlDisks]
  rw [if_neg (by rw [hwrap] at htop ⊢; exact not_le.mpr htop)]
  have hclamp : (mkDiskBSpline d k false).clampParam 0 = 0 := by
    unfold DiskBSpline.clampParam
    rw [mkDiskBSpline_degree, mkDiskBSpline_kn_degree d k false h',
      mkDiskBSpline_controlDisks]
    rw [min_eq_left (le_of_lt (by rw [hwrap] at htop ⊢; exact htop)), max_self]
  rw [hclamp]
  unfold DiskBSpline.diskSum
  rw [mkDiskBSpline_controlDisks, mkDiskBSpline_degree, hwrap]
  have hbasis : ∀ i ∈ Finset.range (d.length - 1 + 1),
      (mkDiskBSpline d k false).basisFunction i k 0 = if i = 0 then 1 else 0 := by
    intro i hi
    simp only [Finset.mem_range] at hi
    refine mkDiskBSpline_basis_at_start d k h' i (by rw [hwrap]; omega)
  have hcomp : ∀ f : Disk → ℚ,
      ∑ i in Finset.range (d.length - 1 + 1),
        (mkDiskBSpline d k false).basisFunction i k 0 * f (d.getD i default) =
        f (d.getD 0 default) := by
    intro f
    rw [Finset.sum_congr rfl fun i hi => by rw [hbasis i hi]]
    simp only [ite_mul, one_mul, zero_mul]
    rw [Finset.sum_ite_eq' (Finset.range (d.length - 1 + 1)) 0
      (fun i => f (d.getD i default))]
    rw [if_pos (by simp)]
  refine Disk.ext (Pt.ext ?_ ?_) ?_
  · exact hcomp fun dsk => dsk.center.x
  · exact hcomp fun dsk => dsk.center.y
  · exact hcomp fun dsk => dsk.radius

/-- Closed-shape evaluation always goes through `wrapParam` and `diskSum`. -/
theorem mkDiskBSpline_evaluateAt_closed (d : List Disk) (k : ℕ)
    (h : k + 1 ≤ (wrapDisks d k true).length) (u : ℚ) :
    (mkDiskBSpline d k true).evaluateAt u =
      (mkDiskBSpline d k true).diskSum ((mkDiskBSpline d k true).wrapParam u) := by
  unfold DiskBSpline.evaluateAt
  rw [if_neg (mkDiskBSpline_not_insufficient d k true h)]
  rw [mkDiskBSpline_closed]
  simp

/-- The period of a closed constructed spline is positive. -/
theorem mkDiskBSpline_period_pos (d : List Disk) (k : ℕ)
    (h : k + 1 ≤ (wrapDisks d k true).length) :
    0 < (mkDiskBSpline d k true).kn ((wrapDisks d k true).length - 1 + 1) -
      (mkDiskBSpline d k true).kn k := by
  rw [mkDiskBSpline_kn_top d k true h, mkDiskBSpline_kn_degree d k true h]
  have : (k : ℚ) + 1 ≤ ((wrapDisks d k true).length : ℚ) := by exact_mod_cast h
  linarith

/-- For `u ≥ knots[degree]`, the wrapped parameter lies in
`[knots[degree], knots[n+1])`. -/
theorem mkDiskBSpline_wrapParam_mem (d : List Disk) (k : ℕ)
    (h : k + 1 ≤ (wrapDisks d k true).length) (u : ℚ)
    (hu : (mkDiskBSpline d k true).kn k ≤ u) :
    (mkDiskBSpline d k true).kn k ≤ (mkDiskBSpline d k true).wrapParam u ∧
      (mkDiskBSpline d k true).wrapParam u <
        (mkDiskBSpline d k true).kn ((wrapDisks d k true).length - 1 + 1) := by
  have hp := mkDiskBSpline_period_pos d k h
  unfold DiskBSpline.wrapParam
  rw [mkDiskBSpline_degree, mkDiskBSpline_controlDisks]
  constructor
  · have := jsMod_nonneg (u - (mkDiskBSpline d k true).kn k) _ (by linarith) hp
    linarith
  · have := jsMod_lt (u - (mkDiskBSpline d k true).kn k) _ (by linarith) hp
    linarith

/-- Wrapping is literally periodic for `u ≥ knots[degree]`. -/
theorem mkDiskBSpline_wrapParam_period (d : List Disk) (k : ℕ)
    (h : k + 1 ≤ (wrapDisks d k true).length) (u : ℚ)
    (hu : (mkDiskBSpline d k true).kn k ≤ u) :
    (mkDiskBSpline d k true).wrapParam
        (u + ((mkDiskBSpline d k true).kn ((wrapDisks d k true).length - 1 + 1) -
          (mkDiskBSpline d k true).kn k)) =
      (mkDiskBSpline d k true).wrapParam u := by
  have hp := mkDiskBSpline_period_pos d k h
  unfold DiskBSpline.wrapParam
  rw [mkDiskBSpline_degree, mkDiskBSpline_controlDisks]
  have hx :
      u + ((mkDiskBSpline d k true).kn ((wrapDisks d k true).length - 1 + 1) -
        (mkDiskBSpline d k true).kn k) - (mkDiskBSpline d k true).kn k =
      (u - (mkDiskBSpline d k true).kn k) +
        ((mkDiskBSpline d k true).kn ((wrapDisks d k true).length - 1 + 1) -
          (mkDiskBSpline d k true).kn k) := by ring
  rw [hx, jsMod_add_period _ _ (by linarith) hp]

/-- C1 (amended): for every constructed spline with at least `degree+1`
control disks and every `u` with `knots[degree] ≤ u < knots[n+1]` (right
endpoint excluded), the basis functions over indices `0 … n` sum to exactly
`1` — in particular within the `1e-4` tolerance. At `u = knots[n+1]` of an
open curve the sum is `0` (see the counterexample). -/
theorem claim_C1_partition (d : List Disk) (k : ℕ) (c : Bool)
    (h : k + 1 ≤ (wrapDisks d k c).length) (u : ℚ)
    (h1 : (mkDiskBSpline d k c).kn k ≤ u)
    (h2 : u < (mkDiskBSpline d k c).kn ((wrapDisks d k c).length - 1 + 1)) :
    ∑ i in Finset.range ((wrapDisks d k c).length - 1 + 1),
      (mkDiskBSpline d k c).basisFunction i k u = 1 :=
  mkDiskBSpline_sum_basis d k c h u h1 h2

/-- C1 witness: scenario A at `u = 1/2`. -/
theorem claim_C1_witness :
    3 + 1 ≤ (wrapDisks scenarioDisksA 3 false).length ∧
    ∑ i in Finset.range ((wrapDisks scenarioDisksA 3 false).length - 1 + 1),
      (mkDiskBSpline scenarioDisksA 3 false).basisFunction i 3 (1/2) = 1 :=
  ⟨by with_unfolding_all decide, claim_C1_partition scenarioDisksA 3 false (by with_unfolding_all decide) (1/2)
    (by with_unfolding_all decide) (by with_unfolding_all decide)⟩

/-- C1 counterexample: on the open degree-1 spline over `twoDisksB`, the
parameter `u = knots[n+1]` lies in the claimed closed domain
`[knots[degree], knots[n+1]]`, but the basis sum there is `0`, violating the
claimed `1e-4` tolerance around `1`. -/
theorem claim_C1_counterexample :
    (mkDiskBSpline twoDisksB 1 false).kn 1 ≤ (mkDiskBSpline twoDisksB 1 false).kn 2 ∧
    ¬ (|(∑ i in Finset.range 2,
        (mkDiskBSpline twoDisksB 1 false).basisFunction i 1
          ((mkDiskBSpline twoDisksB 1 false).kn 2)) - 1| ≤ 1 / 10000) := by
  with_unfolding_all decide

/-- C2: for every open spline with at least `degree+1` control disks,
`evaluateAt knots[degree]` is the first control disk, and every pre-clamp
`u ≥ knots[n+1]` short-circuits to the last control disk. -/
theorem claim_C2_endpoints (d : List Disk) (k : ℕ) (h : k + 1 ≤ d.length) :
    (mkDiskBSpline d k false).evaluateAt ((mkDiskBSpline d k false).kn k) =
      d.getD 0 default ∧
    ∀ u, (mkDiskBSpline d k false).kn (d.length - 1 + 1) ≤ u →
      (mkDiskBSpline d k false).evaluateAt u = d.getD (d.length - 1) default := by
  constructor
  · rw [mkDiskBSpline_kn_degree d k false (by rw [wrapDisks_false]; exact h)]
    exact mkDiskBSpline_evaluateAt_start d k h
  · exact fun u hu => mkDiskBSpline_evaluateAt_last d k h u hu

/-- C2 witness: scenario A, degree 3 — the start parameter returns `(0,0,1)`
and the end parameter `u = 1` returns `(30,0,1)`. -/
theorem claim_C2_witness :
    (mkDiskBSpline scenarioDisksA 3 false).evaluateAt 0 = ⟨⟨0, 0⟩, 1⟩ ∧
    (mkDiskBSpline scenarioDisksA 3 false).evaluateAt 1 = ⟨⟨30, 0⟩, 1⟩ := by
  have h := claim_C2_endpoints scenarioDisksA 3 (by with_unfolding_all decide)
  constructor
  · have h1 := h.1
    rw [show (mkDiskBSpline scenarioDisksA 3 false).kn 3 = 0 from by with_unfolding_all decide] at h1
    rw [h1]
    with_unfolding_all decide
  · have h2 := h.2 1 (by with_unfolding_all decide)
    rw [h2]
    with_unfolding_all decide

/-- C5 (amended): for every closed constructed spline with at least
`degree+1` control disks and every `u ≥ knots[degree]`,
`evaluateAt (u + period) = evaluateAt u` exactly, and the wrapping step maps
`u` into `[knots[degree], knots[n+1])`.  For `u < knots[degree]` the JS `%`
keeps the dividend's sign and both properties fail (see the counterexample). -/
theorem claim_C5_periodicity (d : List Disk) (k : ℕ)
    (h : k + 1 ≤ (wrapDisks d k true).length) (u : ℚ)
    (hu : (mkDiskBSpline d k true).kn k ≤ u) :
    (mkDiskBSpline d k true).evaluateAt
        (u + ((mkDiskBSpline d k true).kn ((wrapDisks d k true).length - 1 + 1) -
          (mkDiskBSpline d k true).kn k)) =
      (mkDiskBSpline d k true).evaluateAt u ∧
    (mkDiskBSpline d k true).kn k ≤ (mkDiskBSpline d k true).wrapParam u ∧
    (mkDiskBSpline d k true).wrapParam u <
      (mkDiskBSpline d k true).kn ((wrapDisks d k true).length - 1 + 1) := by
  refine ⟨?_, mkDiskBSpline_wrapParam_mem d k h u hu⟩
  rw [mkDiskBSpline_evaluateAt_closed d k h, mkDiskBSpline_evaluateAt_closed d k h,
    mkDiskBSpline_wrapParam_period d k h u hu]

/-- C5 witness: the closed degree-1 spline over `twoDisksC` at `u = 1/4`. -/
theorem claim_C5_witness :
    (mkDiskBSpline twoDisksC 1 true).evaluateAt
        ((1/4) + ((mkDiskBSpline twoDisksC 1 true).kn ((wrapDisks twoDisksC 1 true).length - 1 + 1) -
          (mkDiskBSpline twoDisksC 1 true).kn 1)) =
      (mkDiskBSpline twoDisksC 1 true).evaluateAt (1/4) ∧
    (mkDiskBSpline twoDisksC 1 true).kn 1 ≤ (mkDiskBSpline twoDisksC 1 true).wrapParam (1/4) ∧
    (mkDiskBSpline twoDisksC 1 true).wrapParam (1/4) <
      (mkDiskBSpline twoDisksC 1 true).kn ((wrapDisks twoDisksC 1 true).length - 1 + 1) :=
  claim_C5_periodicity twoDisksC 1 (by with_unfolding_all decide) (1/4) (by with_unfolding_all decide)

/-- C5 counterexample: on the closed degree-1 spline over `twoDisksC` the
period is `2`, but `evaluateAt (-1/2 + 2) ≠ evaluateAt (-1/2)` (the disks even
differ in radius by `1`), and the wrapped parameter of `u = -1/2` falls below
`knots[degree]`, outside the claimed interval. -/
theorem claim_C5_counterexample :
    (mkDiskBSpline twoDisksC 1 true).kn 3 - (mkDiskBSpline twoDisksC 1 true).kn 1 = 2 ∧
    ¬ (|((mkDiskBSpline twoDisksC 1 true).evaluateAt (-(1/2) + 2)).radius -
        ((mkDiskBSpline twoDisksC 1 true).evaluateAt (-(1/2))).radius| ≤ 1 / 10000) ∧
    ¬ ((mkDiskBSpline twoDisksC 1 true).kn 1 ≤
        (mkDiskBSpline twoDisksC 1 true).wrapParam (-(1/2))) := by
  with_unfolding_all decide

/-- C6: with fewer than `degree+1` control disks, the constructor's knot
generation leaves the knot vector empty, and `evaluateAt` returns the zero
disk for every parameter; both are total functions, so no exception can
occur. -/
theorem claim_C6_soft_failure (d : List Disk) (k : ℕ) (c : Bool)
    (h : d.length < k + 1) :
    (mkDiskBSpline d k c).knots = [] ∧
    ∀ u : ℚ, (mkDiskBSpline d k c).evaluateAt u = ⟨⟨0, 0⟩, 0⟩ := by
  have hwrap : wrapDisks d k c = d := by
    unfold wrapDisks
    rw [if_neg]
    rintro ⟨-, h2⟩
    omega
  have hknots : (mkDiskBSpline d k c).knots = [] := by
    unfold mkDiskBSpline DiskBSpline.generateUniformKnots
    rw [if_pos (by
      show ((wrapDisks d k c).length : ℤ) - 1 < (k : ℤ)
      rw [hwrap]
      omega)]
  refine ⟨hknots, fun u => ?_⟩
  unfold DiskBSpline.evaluateAt
  rw [if_pos (by rw [mkDiskBSpline_controlDisks, mkDiskBSpline_degree, hwrap]; omega)]

/-- C6 witness: 3 disks with degree 3 (scenario B). -/
theorem claim_C6_witness :
    (mkDiskBSpline threeDisksE 3 false).knots = [] ∧
    (mkDiskBSpline threeDisksE 3 false).evaluateAt 5 = ⟨⟨0, 0⟩, 0⟩ := by
  have h := claim_C6_soft_failure threeDisksE 3 false (by decide)
  exact ⟨h.1, h.2 5⟩

/-- C7 (amended): for every constructed spline with at least `degree+1`
control disks, and — for closed curves — every `u ≥ knots[degree]` (for open
curves every `u`), the interpolated radius lies within any interval `[m, M]`
containing all control radii; with `m = 0` it is never negative.  Without
enough control disks `evaluateAt` returns the zero disk whose radius can lie
below all control radii, and a closed curve evaluated below `knots[degree]`
loses the convex-combination property (wrapping is signed). -/
theorem claim_C7_radius_range (d : List Disk) (k : ℕ) (c : Bool)
    (h : k + 1 ≤ (wrapDisks d k c).length) (u : ℚ)
    (hcu : c = true → (mkDiskBSpline d k c).kn k ≤ u)
    (m M : ℚ) (hr : ∀ dsk ∈ wrapDisks d k c, m ≤ dsk.radius ∧ dsk.radius ≤ M) :
    m ≤ ((mkDiskBSpline d k c).evaluateAt u).radius ∧
      ((mkDiskBSpline d k c).evaluateAt u).radius ≤ M := by
  cases c
  · have hw := wrapDisks_false d k
    rw [hw] at h hr
    by_cases hu : (mkDiskBSpline d k false).kn (d.length - 1 + 1) ≤ u
    · rw [mkDiskBSpline_evaluateAt_last d k h u hu]
      have hmem : d.getD (d.length - 1) default ∈ d := by
        rw [List.getD_eq_getElem _ _ (by omega)]
        exact List.getElem_mem _
      exact hr _ hmem
    · push_neg at hu
      have heval : (mkDiskBSpline d k false).evaluateAt u =
          (mkDiskBSpline d k false).diskSum ((mkDiskBSpline d k false).clampParam u) := by
        unfold DiskBSpline.evaluateAt
        rw [if_neg (mkDiskBSpline_not_insufficient d k false (by rw [hw]; exact h))]
        rw [mkDiskBSpline_closed]
        simp only [Bool.false_eq_true, if_false]
        rw [mkDiskBSpline_controlDisks, hw, if_neg (not_le.mpr hu)]
      rw [heval]
      have hk1 : (mkDiskBSpline d k false).kn k ≤ (mkDiskBSpline d k false).clampParam u := by
        unfold DiskBSpline.clampParam
        rw [mkDiskBSpline_degree]
        exact le_max_left _ _
      have hktop : (mkDiskBSpline d k false).kn k <
          (mkDiskBSpline d k false).kn ((wrapDisks d k false).length - 1 + 1) := by
        rw [mkDiskBSpline_kn_degree d k false (by rw [hw]; exact h),
          mkDiskBSpline_kn_top d k false (by rw [hw]; exact h), hw]
        have : (k : ℚ) + 1 ≤ (d.length : ℚ) := by exact_mod_cast h
        linarith
      have hk2 : (mkDiskBSpline d k false).clampParam u <
          (mkDiskBSpline d k false).kn ((wrapDisks d k false).length - 1 + 1) := by
        unfold DiskBSpline.clampParam
        rw [mkDiskBSpline_degree, mkDiskBSpline_controlDisks]
        rw [max_lt_iff]
        refine ⟨hktop, lt_of_le_of_lt (min_le_left _ _) ?_⟩
        rw [hw]
        exact hu
      exact mkDiskBSpline_diskSum_radius d k false (by rw [hw]; exact h) _ hk1 hk2 m M
        (by rw [hw]; exact hr)
  · rw [mkDiskBSpline_evaluateAt_closed d k h u]
    have hmem := mkDiskBSpline_wrapParam_mem d k h u (hcu rfl)
    exact mkDiskBSpline_diskSum_radius d k true h _ hmem.1 hmem.2 m M hr

/-- C7 witness: scenario A at `u = 1/2`, all radii within `[1, 2]`. -/
theorem claim_C7_witness :
    1 ≤ ((mkDiskBSpline scenarioDisksA 3 false).evaluateAt (1/2)).radius ∧
    ((mkDiskBSpline scenarioDisksA 3 false).evaluateAt (1/2)).radius ≤ 2 :=
  claim_C7_radius_range scenarioDisksA 3 false (by with_unfolding_all decide) (1/2)
    (by intro hx; exact absurd hx (by with_unfolding_all decide)) 1 2
    (by with_unfolding_all decide)

/-- C7 counterexample: three disks all of radius `2` with degree `3` (all
control radii non-negative), yet `evaluateAt 0` has radius `0`, strictly
below the minimum control radius — the claim as stated excludes neither the
insufficient-disk case nor closed curves below the wrap domain. -/
theorem claim_C7_counterexample :
    (∀ dsk ∈ threeDisksE, 0 ≤ dsk.radius ∧ 2 ≤ dsk.radius) ∧
    ¬ (2 ≤ ((mkDiskBSpline threeDisksE 3 false).evaluateAt 0).radius) := by
  with_unfolding_all decide

/-- C10: invoked with `controlDisks.length - 1 < degree` (in JS arithmetic,
i.e. `length < degree + 1`), `generateUniformKnots` returns the state
unchanged: the previous knot vector and every other field are preserved. -/
theorem claim_C10_atomic (s : DiskBSpline)
    (h : s.controlDisks.length < s.degree + 1) :
    s.generateUniformKnots = s := by
  unfold DiskBSpline.generateUniformKnots
  rw [if_pos (by omega)]

/-- C10 witness: a spline state with a stale non-empty knot vector and a
single control disk keeps its knots (and all fields) on a failed rebuild. -/
theorem claim_C10_witness :
    DiskBSpline.generateUniformKnots
        { degree := 3, closed := false,
          controlDisks := [⟨⟨0, 0⟩, 1⟩], knots := [9, 9] } =
      { degree := 3, closed := false,
        controlDisks := [⟨⟨0, 0⟩, 1⟩], knots := [9, 9] } :=
  claim_C10_atomic _ (by decide)

/-- Disk wrapping for closed shapes with enough control disks. -/
theorem wrapDisks_true (d : List Disk) (k : ℕ) (h : k < d.length) :
    wrapDisks d k true = d ++ d.take k := by
  unfold wrapDisks
  rw [if_pos ⟨rfl, h⟩]

theorem wrapDisks_true_length (d : List Disk) (k : ℕ) (h : k < d.length) :
    (wrapDisks d k true).length = d.length + k := by
  rw [wrapDisks_true d k h]
  simp [List.length_take, min_eq_left (le_of_lt h)]

/-- C9: with `n = diskCount - 1 ≥ degree = k`, the open knot vector has
length `n+k+2`, clamps to `0` on the first `k+1` indices and to `n-k+1`
beyond index `n`, is `i-k` in between, and is non-decreasing; for closed
shapes the stored control sequence is the input extended by its first `k`
disks and the knot vector is the uniform progression `i-k` over
`extendedLength + k + 1` entries. -/
theorem claim_C9_knots (d : List Disk) (k : ℕ) (h : k + 1 ≤ d.length) :
    ((mkDiskBSpline d k false).knots.length = (d.length - 1) + k + 2 ∧
     (∀ i, i < k + 1 → (mkDiskBSpline d k false).kn i = 0) ∧
     (∀ i, d.length - 1 < i → i < (d.length - 1) + k + 2 →
        (mkDiskBSpline d k false).kn i = ((d.length - 1 : ℕ) : ℚ) - k + 1) ∧
     (∀ i, k + 1 ≤ i → i ≤ d.length - 1 →
        (mkDiskBSpline d k false).kn i = (i : ℚ) - k) ∧
     (mkDiskBSpline d k false).knots.Pairwise (· ≤ ·)) ∧
    ((mkDiskBSpline d k true).controlDisks = d ++ d.take k ∧
     (mkDiskBSpline d k true).knots.length = (d.length + k) + k + 1 ∧
     (∀ i, i < (d.length + k) + k + 1 →
        (mkDiskBSpline d k true).kn i = (i : ℚ) - k)) := by
  have hw := wrapDisks_false d k
  have hof : k + 1 ≤ (wrapDisks d k false).length := by rw [hw]; exact h
  have hct : k < d.length := by omega
  have hwt := wrapDisks_true_length d k hct
  have hot : k + 1 ≤ (wrapDisks d k true).length := by rw [hwt]; omega
  refine ⟨⟨?_, ?_, ?_, ?_, ?_⟩, ?_, ?_, ?_⟩
  · rw [mkDiskBSpline_knots_length d k false hof, hw]
    omega
  · intro i hi
    rw [mkDiskBSpline_kn d k false hof i (by rw [hw]; omega)]
    simp only [Bool.false_eq_true, if_false, openKnotQ]
    rw [show openKnotZ ((wrapDisks d k false).length - 1) k i = 0 from by
      unfold openKnotZ; rw [if_pos hi]]
    norm_num
  · intro i hi1 hi2
    rw [mkDiskBSpline_kn d k false hof i (by rw [hw]; omega)]
    simp only [Bool.false_eq_true, if_false, openKnotQ]
    rw [show openKnotZ ((wrapDisks d k false).length - 1) k i =
        ((d.length - 1 : ℕ) : ℤ) - k + 1 from by
      unfold openKnotZ
      rw [hw]
      split_ifs <;> omega]
    push_cast
    ring
  · intro i hi1 hi2
    rw [mkDiskBSpline_kn d k false hof i (by rw [hw]; omega)]
    simp only [Bool.false_eq_true, if_false, openKnotQ]
    rw [show openKnotZ ((wrapDisks d k false).length - 1) k i = (i : ℤ) - k from by
      unfold openKnotZ
      rw [hw]
      split_ifs <;> omega]
    push_cast
    ring
  · rw [mkDiskBSpline_knots d k false hof]
    rw [List.pairwise_map]
    refine (List.pairwise_lt_range _).imp ?_
    intro a b hab
    have hmono : Monotone (fun j => if (false : Bool) = true then closedKnotQ k j
        else openKnotQ ((wrapDisks d k false).length - 1) k j) :=
      mkKnotF_mono d k false hof
    exact hmono (le_of_lt hab)
  · rw [mkDiskBSpline_controlDisks, wrapDisks_true d k hct]
  · rw [mkDiskBSpline_knots_length d k true hot, hwt]
  · intro i hi
    rw [mkDiskBSpline_kn d k true hot i (by rw [hwt]; omega)]
    simp only [if_pos rfl, closedKnotQ, closedKnotZ]
    push_cast
    ring

/-- C9 witness: scenario A (4 disks, degree 3, open) has the knot vector
`[0,0,0,0,1,1,1,1]` of length 8; and closed construction over the same disks
stores `4 + 3` disks with uniform knots `i - 3`. -/
theorem claim_C9_witness :
    (mkDiskBSpline scenarioDisksA 3 false).knots.length = 8 ∧
    (mkDiskBSpline scenarioDisksA 3 false).kn 2 = 0 ∧
    (mkDiskBSpline scenarioDisksA 3 false).kn 5 = 1 ∧
    (mkDiskBSpline scenarioDisksA 3 true).controlDisks.length = 7 ∧
    (mkDiskBSpline scenarioDisksA 3 true).kn 0 = -3 := by
  have h := claim_C9_knots scenarioDisksA 3 (by decide)
  refine ⟨?_, ?_, ?_, ?_, ?_⟩
  · rw [h.1.1]
    decide
  · exact h.1.2.1 2 (by decide)
  · rw [h.1.2.2.1 5 (by decide) (by decide)]
    with_unfolding_all decide
  · rw [h.2.1]
    decide
  · rw [h.2.2.2 0 (by decide)]
    with_unfolding_all decide

/-- The extra samples never number more than 4. -/
theorem extraSamples_length_le (s : DiskBSpline) (us : List (ℚ × Disk))
    (curvs : List ℝ) (maxCurvature : ℝ) (i : ℕ) :
    (extraSamples s us curvs maxCurvature i).length ≤ 4 := by
  unfold extraSamples
  rw [List.length_map, List.length_range]
  unfold numExtraSamples
  omega

/-- Every refinement step appends the uniform sample, so it grows the
accumulator by at least one. -/
theorem sampleStep_length_lb (s : DiskBSpline) (us : List (ℚ × Disk))
    (curvs : List ℝ) (maxC : ℝ) (maxN : ℕ) (acc : List (ℚ × Disk)) (i : ℕ) :
    acc.length + 1 ≤ (sampleStep s us curvs maxC maxN acc i).length := by
  unfold sampleStep
  split
  · simp only [List.length_append, List.length_cons, List.length_nil]
    omega
  · simp only [List.length_append, List.length_cons, List.length_nil]
    omega

/-- A refinement step only inserts extra samples (at most 4) while the
running count is below `maxNumSamples`, so it never grows the accumulator
past `max (len+1) (maxNumSamples+3)`. -/
theorem sampleStep_length_ub (s : DiskBSpline) (us : List (ℚ × Disk))
    (curvs : List ℝ) (maxC : ℝ) (maxN : ℕ) (acc : List (ℚ × Disk)) (i : ℕ) :
    (sampleStep s us curvs maxC maxN acc i).length ≤
      max (acc.length + 1) (maxN + 3) := by
  unfold sampleStep
  split
  · next hcond =>
    have hlt := hcond.2.1
    have hex := extraSamples_length_le s us curvs maxC i
    simp only [List.length_append, List.length_cons, List.length_nil] at hlt ⊢
    omega
  · simp only [List.length_append, List.length_cons, List.length_nil]
    omega

/-- Folding a step that always grows the list grows it by the list length. -/
theorem foldl_length_lb {α : Type} (f : List α → ℕ → List α)
    (hf : ∀ a i, a.length + 1 ≤ (f a i).length) :
    ∀ (l : List ℕ) (a : List α), a.length + l.length ≤ (List.foldl f a l).length := by
  intro l
  induction l with
  | nil => intro a; simp
  | cons x xs ih =>
    intro a
    rw [List.foldl_cons]
    have h1 := hf a x
    have h2 := ih (f a x)
    simp only [List.length_cons]
    omega

/-- Folding a step bounded by `max (len+1) M` keeps the final length below
`max len M + #steps`. -/
theorem foldl_length_ub {α : Type} (f : List α → ℕ → List α) (M : ℕ)
    (hf : ∀ a i, (f a i).length ≤ max (a.length + 1) M) :
    ∀ (l : List ℕ) (a : List α),
      (List.foldl f a l).length ≤ max a.length M + l.length := by
  intro l
  induction l with
  | nil => intro a; simp
  | cons x xs ih =>
    intro a
    rw [List.foldl_cons]
    have h1 := hf a x
    have h2 := ih (f a x)
    simp only [List.length_cons]
    omega

theorem adaptivePass_length_lb (s : DiskBSpline) (eb maxN : ℕ) :
    eb - 1 ≤ (s.adaptivePass eb maxN).length := by
  unfold DiskBSpline.adaptivePass
  have := foldl_length_lb _ (sampleStep_length_lb s (s.uniformSamples eb)
    (s.curvatureList eb) ((s.curvatureList eb).foldl max 0) maxN)
    (List.range (eb - 1)) []
  simpa using this

theorem adaptivePass_length_ub (s : DiskBSpline) (eb maxN : ℕ) :
    (s.adaptivePass eb maxN).length ≤ (maxN + 3) + (eb - 1) := by
  unfold DiskBSpline.adaptivePass
  have := foldl_length_ub _ (maxN + 3) (sampleStep_length_ub s (s.uniformSamples eb)
    (s.curvatureList eb) ((s.curvatureList eb).foldl max 0) maxN)
    (List.range (eb - 1)) []
  simpa using this

theorem sampleCurveAdaptive_length_lb (s : DiskBSpline) (base maxN : ℕ)
    (h : ¬ (s.controlDisks.length < s.degree + 1)) :
    s.effectiveBase base ≤ (s.sampleCurveAdaptive base maxN).length := by
  unfold DiskBSpline.sampleCurveAdaptive
  rw [if_neg h]
  have hlb := adaptivePass_length_lb s (s.effectiveBase base) maxN
  simp only [List.length_map, List.length_append, List.length_cons, List.length_nil]
  omega

theorem sampleCurveAdaptive_length_ub (s : DiskBSpline) (base maxN : ℕ)
    (h : ¬ (s.controlDisks.length < s.degree + 1)) :
    (s.sampleCurveAdaptive base maxN).length ≤ s.effectiveBase base + maxN + 3 := by
  unfold DiskBSpline.sampleCurveAdaptive
  rw [if_neg h]
  have hub := adaptivePass_length_ub s (s.effectiveBase base) maxN
  have heb : 1 ≤ s.effectiveBase base := by
    unfold DiskBSpline.effectiveBase
    omega
  simp only [List.length_map, List.length_append, List.length_cons, List.length_nil]
  omega

/-- C3 (amended): the adaptive sampler returns at least
`effectiveBase = max(baseNumSamples, min(200, diskCount · 20))` samples, and
at most `effectiveBase + maxNumSamples + 3` samples.  The `maxNumSamples` cap
only gates the insertion of extra curvature samples, so the output exceeds
`maxNumSamples` whenever `maxNumSamples < effectiveBase` (see the
counterexample). -/
theorem claim_C3_sample_bounds (d : List Disk) (k : ℕ) (c : Bool)
    (base maxN : ℕ) (h : k + 1 ≤ (wrapDisks d k c).length) :
    (mkDiskBSpline d k c).effectiveBase base ≤
      ((mkDiskBSpline d k c).sampleCurveAdaptive base maxN).length ∧
    ((mkDiskBSpline d k c).sampleCurveAdaptive base maxN).length ≤
      (mkDiskBSpline d k c).effectiveBase base + maxN + 3 :=
  ⟨sampleCurveAdaptive_length_lb _ base maxN (mkDiskBSpline_not_insufficient d k c h),
   sampleCurveAdaptive_length_ub _ base maxN (mkDiskBSpline_not_insufficient d k c h)⟩

/-- C3 witness: scenario A with `base = 50`, `max = 1000`. -/
theorem claim_C3_witness :
    (mkDiskBSpline scenarioDisksA 3 false).effectiveBase 50 ≤
      ((mkDiskBSpline scenarioDisksA 3 false).sampleCurveAdaptive 50 1000).length ∧
    ((mkDiskBSpline scenarioDisksA 3 false).sampleCurveAdaptive 50 1000).length ≤
      (mkDiskBSpline scenarioDisksA 3 false).effectiveBase 50 + 1000 + 3 :=
  claim_C3_sample_bounds scenarioDisksA 3 false 50 1000 (by decide)

/-- C3 counterexample: with `maxNumSamples = 0` the sampler still returns its
effective base count of 80 samples for scenario A — the output is not bounded
by `maxNumSamples`. -/
theorem claim_C3_counterexample :
    ¬ (((mkDiskBSpline scenarioDisksA 3 false).sampleCurveAdaptive 50 0).length ≤ 0) := by
  have hlb := sampleCurveAdaptive_length_lb (mkDiskBSpline scenarioDisksA 3 false) 50 0
    (mkDiskBSpline_not_insufficient scenarioDisksA 3 false (by decide))
  have heb : (mkDiskBSpline scenarioDisksA 3 false).effectiveBase 50 = 80 := by
    with_unfolding_all decide
  omega

/-- Open spline, `u ≥ knots[n+1]`, non-degenerate finite difference: the
result is the normalized finite difference between the last two disks. -/
theorem mk_evalDeriv_end_fd (d : List Disk) (k : ℕ) (h : k + 1 ≤ d.length)
    (u : ℚ) (hu : (mkDiskBSpline d k false).kn (d.length - 1 + 1) ≤ u)
    (hL : (1 : ℝ) / 10000 <
      fdLen (d.getD (d.length - 1 - 1) default) (d.getD (d.length - 1) default)) :
    (mkDiskBSpline d k false).evaluateDerivativeAt u =
      fdUnit (d.getD (d.length - 1 - 1) default) (d.getD (d.length - 1) default) := by
  unfold DiskBSpline.evaluateDerivativeAt
  rw [mkDiskBSpline_controlDisks, mkDiskBSpline_degree, mkDiskBSpline_closed,
    wrapDisks_false]
  rw [if_neg (by omega : ¬ (d.length < k + 1))]
  simp only [Bool.false_eq_true, if_false]
  rw [if_pos hu, if_pos (by unfold fdLen at hL; exact hL)]
  rfl

/-- Open spline, `u ≥ knots[n+1]`, degenerate finite difference: fall through
to the analytic loop at the clamped parameter `knots[n+1]`. -/
theorem mk_evalDeriv_end_loop (d : List Disk) (k : ℕ) (h : k + 1 ≤ d.length)
    (u : ℚ) (hu : (mkDiskBSpline d k false).kn (d.length - 1 + 1) ≤ u)
    (hL : ¬ (1 : ℝ) / 10000 <
      fdLen (d.getD (d.length - 1 - 1) default) (d.getD (d.length - 1) default)) :
    (mkDiskBSpline d k false).evaluateDerivativeAt u =
      d3ofQ ((mkDiskBSpline d k false).derivLoopSumQ
        ((mkDiskBSpline d k false).kn (d.length - 1 + 1))) := by
  have h' : k + 1 ≤ (wrapDisks d k false).length := by rw [wrapDisks_false]; exact h
  have hktop : (mkDiskBSpline d k false).kn k ≤
      (mkDiskBSpline d k false).kn (d.length - 1 + 1) := by
    rw [mkDiskBSpline_kn_degree d k false h']
    rw [show (d.length - 1 + 1) = ((wrapDisks d k false).length - 1 + 1) from by
      rw [wrapDisks_false]]
    rw [mkDiskBSpline_kn_top d k false h']
    rw [wrapDisks_false]
    have : (k : ℚ) + 1 ≤ (d.length : ℚ) := by exact_mod_cast h
    linarith
  have hclamp : (mkDiskBSpline d k false).clampParam u =
      (mkDiskBSpline d k false).kn (d.length - 1 + 1) := by
    unfold DiskBSpline.clampParam
    rw [mkDiskBSpline_degree, mkDiskBSpline_controlDisks, wrapDisks_false]
    rw [min_eq_right hu, max_eq_right hktop]
  unfold DiskBSpline.evaluateDerivativeAt
  rw [mkDiskBSpline_controlDisks, mkDiskBSpline_degree, mkDiskBSpline_closed,
    wrapDisks_false]
  rw [if_neg (by omega : ¬ (d.length < k + 1))]
  simp only [Bool.false_eq_true, if_false]
  rw [if_pos hu, if_neg (by unfold fdLen at hL; exact hL), hclamp]

/-- Open spline, `u ≤ knots[degree]` (and below `knots[n+1]`), non-degenerate
finite difference: the result is the normalized finite difference between the
first two disks. -/
theorem mk_evalDeriv_start_fd (d : List Disk) (k : ℕ) (h : k + 1 ≤ d.length)
    (u : ℚ) (hu1 : ¬ ((mkDiskBSpline d k false).kn (d.length - 1 + 1) ≤ u))
    (hu2 : u ≤ (mkDiskBSpline d k false).kn k)
    (hL : (1 : ℝ) / 10000 < fdLen (d.getD 0 default) (d.getD 1 default)) :
    (mkDiskBSpline d k false).evaluateDerivativeAt u =
      fdUnit (d.getD 0 default) (d.getD 1 default) := by
  unfold DiskBSpline.evaluateDerivativeAt
  rw [mkDiskBSpline_controlDisks, mkDiskBSpline_degree, mkDiskBSpline_closed,
    wrapDisks_false]
  rw [if_neg (by omega : ¬ (d.length < k + 1))]
  simp only [Bool.false_eq_true, if_false]
  rw [if_neg hu1, if_pos hu2, if_pos (by unfold fdLen at hL; exact hL)]
  rfl

/-- Open spline, `u ≤ knots[degree]`, degenerate finite difference: fall
through to the analytic loop at the clamped parameter `knots[degree]`. -/
theorem mk_evalDeriv_start_loop (d : List Disk) (k : ℕ) (h : k + 1 ≤ d.length)
    (u : ℚ) (hu1 : ¬ ((mkDiskBSpline d k false).kn (d.length - 1 + 1) ≤ u))
    (hu2 : u ≤ (mkDiskBSpline d k false).kn k)
    (hL : ¬ (1 : ℝ) / 10000 < fdLen (d.getD 0 default) (d.getD 1 default)) :
    (mkDiskBSpline d k false).evaluateDerivativeAt u =
      d3ofQ ((mkDiskBSpline d k false).derivLoopSumQ
        ((mkDiskBSpline d k false).kn k)) := by
  have hclamp : (mkDiskBSpline d k false).clampParam u =
      (mkDiskBSpline d k false).kn k := by
    unfold DiskBSpline.clampParam
    rw [mkDiskBSpline_degree, mkDiskBSpline_controlDisks, wrapDisks_false]
    rw [min_eq_left (le_of_not_le (fun hge => hu1 hge)), max_eq_left hu2]
  unfold DiskBSpline.evaluateDerivativeAt
  rw [mkDiskBSpline_controlDisks, mkDiskBSpline_degree, mkDiskBSpline_closed,
    wrapDisks_false]
  rw [if_neg (by omega : ¬ (d.length < k + 1))]
  simp only [Bool.false_eq_true, if_false]
  rw [if_neg hu1, if_pos hu2, if_neg (by unfold fdLen at hL; exact hL), hclamp]

/-- C8 (amended): at the open curve's endpoint parameters,
`evaluateDerivativeAt` returns the normalized finite-difference direction
between the two boundary-adjacent control disks whenever that finite
difference itself has length above `1e-4`; only when the finite difference is
near-zero does it fall back to the analytic basis-derivative sum, evaluated at
the clamped parameter.  (The claim stated the opposite priority: analytic
first with the finite difference as fallback — see the counterexample.) -/
theorem claim_C8_endpoint_tangent (d : List Disk) (k : ℕ)
    (h : k + 1 ≤ d.length) (u : ℚ) :
    ((mkDiskBSpline d k false).kn (d.length - 1 + 1) ≤ u →
      (((1 : ℝ) / 10000 <
          fdLen (d.getD (d.length - 1 - 1) default) (d.getD (d.length - 1) default) →
        (mkDiskBSpline d k false).evaluateDerivativeAt u =
          fdUnit (d.getD (d.length - 1 - 1) default) (d.getD (d.length - 1) default)) ∧
       (¬ (1 : ℝ) / 10000 <
          fdLen (d.getD (d.length - 1 - 1) default) (d.getD (d.length - 1) default) →
        (mkDiskBSpline d k false).evaluateDerivativeAt u =
          d3ofQ ((mkDiskBSpline d k false).derivLoopSumQ
            ((mkDiskBSpline d k false).kn (d.length - 1 + 1)))))) ∧
    (¬ ((mkDiskBSpline d k false).kn (d.length - 1 + 1) ≤ u) →
      u ≤ (mkDiskBSpline d k false).kn k →
      (((1 : ℝ) / 10000 < fdLen (d.getD 0 default) (d.getD 1 default) →
        (mkDiskBSpline d k false).evaluateDerivativeAt u =
          fdUnit (d.getD 0 default) (d.getD 1 default)) ∧
       (¬ (1 : ℝ) / 10000 < fdLen (d.getD 0 default) (d.getD 1 default) →
        (mkDiskBSpline d k false).evaluateDerivativeAt u =
          d3ofQ ((mkDiskBSpline d k false).derivLoopSumQ
            ((mkDiskBSpline d k false).kn k))))) :=
  ⟨fun hu =>
    ⟨fun hL => mk_evalDeriv_end_fd d k h u hu hL,
     fun hL => mk_evalDeriv_end_loop d k h u hu hL⟩,
   fun hu1 hu2 =>
    ⟨fun hL => mk_evalDeriv_start_fd d k h u hu1 hu2 hL,
     fun hL => mk_evalDeriv_start_loop d k h u hu1 hu2 hL⟩⟩

/-- C8 witness: scenario A at `u = 5 ≥ knots[n+1]` — the finite difference of
the last two disks is `(10, 0, -1)` of length 10, so the result is
`(1, 0, -1/10)`. -/
theorem claim_C8_witness :
    (mkDiskBSpline scenarioDisksA 3 false).evaluateDerivativeAt 5 =
      { x := 1, y := 0, radiusRate := -(1/10) } := by
  have h2 : scenarioDisksA.getD (scenarioDisksA.length - 1 - 1) default =
      (⟨⟨20, 0⟩, 2⟩ : Disk) := by decide
  have h3 : scenarioDisksA.getD (scenarioDisksA.length - 1) default =
      (⟨⟨30, 0⟩, 1⟩ : Disk) := by decide
  have hfd : fdLen (scenarioDisksA.getD (scenarioDisksA.length - 1 - 1) default)
      (scenarioDisksA.getD (scenarioDisksA.length - 1) default) = 10 := by
    rw [h2, h3]
    unfold fdLen
    push_cast
    rw [show ((30 : ℝ) - 20) * ((30 : ℝ) - 20) + ((0 : ℝ) - 0) * ((0 : ℝ) - 0) =
      10 ^ 2 from by norm_num]
    rw [Real.sqrt_sq (by norm_num : (0 : ℝ) ≤ 10)]
  have hmain := (claim_C8_endpoint_tangent scenarioDisksA 3 (by decide) 5).1
    (by with_unfolding_all decide)
  have hres := hmain.1 (by rw [hfd]; norm_num)
  rw [hres, h2, h3]
  unfold fdUnit
  rw [show fdLen (⟨⟨20, 0⟩, 2⟩ : Disk) (⟨⟨30, 0⟩, 1⟩ : Disk) = 10 from by
    rw [← h2, ← h3]; exact hfd]
  refine Deriv3.ext ?_ ?_ ?_ <;> push_cast <;> norm_num

/-- C8 counterexample: at scenario A's start parameter `u = 0 = knots[degree]`
the analytic basis-derivative tangent is `(30, 0, 3)` with planar length 30
(far from near-zero), yet `evaluateDerivativeAt 0` does not return it — the
source returns the normalized finite difference `(1, 0, 1/10)` first. -/
theorem claim_C8_counterexample :
    (mkDiskBSpline scenarioDisksA 3 false).derivLoopSumQ
        ((mkDiskBSpline scenarioDisksA 3 false).kn 3) = (30, 0, 3) ∧
    (1 : ℝ) / 10000 < Real.sqrt ((30 : ℝ) * 30 + 0 * 0) ∧
    (mkDiskBSpline scenarioDisksA 3 false).evaluateDerivativeAt 0 ≠
      d3ofQ ((mkDiskBSpline scenarioDisksA 3 false).derivLoopSumQ
        ((mkDiskBSpline scenarioDisksA 3 false).kn 3)) := by
  refine ⟨by with_unfolding_all decide, ?_, ?_⟩
  · rw [show (30 : ℝ) * 30 + 0 * 0 = 30 ^ 2 from by norm_num,
      Real.sqrt_sq (by norm_num : (0 : ℝ) ≤ 30)]
    norm_num
  · have h0 : scenarioDisksA.getD 0 default = (⟨⟨0, 0⟩, 1⟩ : Disk) := by decide
    have h1 : scenarioDisksA.getD 1 default = (⟨⟨10, 0⟩, 2⟩ : Disk) := by decide
    have hfd : fdLen (scenarioDisksA.getD 0 default)
        (scenarioDisksA.getD 1 default) = 10 := by
      rw [h0, h1]
      unfold fdLen
      push_cast
      rw [show ((10 : ℝ) - 0) * ((10 : ℝ) - 0) + ((0 : ℝ) - 0) * ((0 : ℝ) - 0) =
        10 ^ 2 from by norm_num]
      rw [Real.sqrt_sq (by norm_num : (0 : ℝ) ≤ 10)]
    have hres := mk_evalDeriv_start_fd scenarioDisksA 3 (by decide) 0
      (by with_unfolding_all decide) (by with_unfolding_all decide)
      (by rw [hfd]; norm_num)
    rw [hres]
    intro heq
    have hx := congrArg Deriv3.x heq
    rw [h0, h1] at hx
    unfold fdUnit at hx
    rw [show fdLen (⟨⟨0, 0⟩, 1⟩ : Disk) (⟨⟨10, 0⟩, 2⟩ : Disk) = 10 from by
      rw [← h0, ← h1]; exact hfd] at hx
    have hq : (mkDiskBSpline scenarioDisksA 3 false).derivLoopSumQ
        ((mkDiskBSpline scenarioDisksA 3 false).kn 3) = (30, 0, 3) := by
      with_unfolding_all decide
    rw [hq] at hx
    unfold d3ofQ at hx
    simp only [] at hx
    push_cast at hx
    norm_num at hx

/-! ### Claim C4: arc commands of the closed-curve fill path -/

theorem countArcs_append (a b : List PathCmd) :
    countArcs (a ++ b) = countArcs a + countArcs b := by
  unfold countArcs
  rw [List.filter_append, List.length_append]

theorem countArcs_map_line (l : List (ℝ × ℝ)) :
    countArcs (l.map PathCmd.line) = 0 := by
  unfold countArcs
  induction l with
  | nil => rfl
  | cons x xs ih => simpa [List.filter_cons, PathCmd.isArc] using ih

/-- Every refinement step extends the accumulator on the right. -/
theorem sampleStep_eq_append (s : DiskBSpline) (us : List (ℚ × Disk))
    (curvs : List ℝ) (maxC : ℝ) (maxN : ℕ) (acc : List (ℚ × Disk)) (i : ℕ) :
    ∃ l, sampleStep s us curvs maxC maxN acc i =
      (acc ++ [us.getD i (0, default)]) ++ l := by
  unfold sampleStep
  split
  · exact ⟨_, rfl⟩
  · exact ⟨[], (List.append_nil _).symm⟩

theorem foldl_sampleStep_append (s : DiskBSpline) (us : List (ℚ × Disk))
    (curvs : List ℝ) (maxC : ℝ) (maxN : ℕ) :
    ∀ (l : List ℕ) (acc : List (ℚ × Disk)),
      ∃ t, List.foldl (sampleStep s us curvs maxC maxN) acc l = acc ++ t := by
  intro l
  induction l with
  | nil => intro acc; exact ⟨[], (List.append_nil _).symm⟩
  | cons x xs ih =>
    intro acc
    rw [List.foldl_cons]
    obtain ⟨l1, hl1⟩ := sampleStep_eq_append s us curvs maxC maxN acc x
    obtain ⟨t, ht⟩ := ih (sampleStep s us curvs maxC maxN acc x)
    refine ⟨[us.getD x (0, default)] ++ l1 ++ t, ?_⟩
    rw [ht, hl1]
    simp [List.append_assoc]

theorem uniformSamples_getD_zero (s : DiskBSpline) (eb : ℕ) (heb : 0 < eb) :
    (s.uniformSamples eb).getD 0 (0, default) =
      (s.uniformU eb 0, s.evaluateAt (s.uniformU eb 0)) := by
  unfold DiskBSpline.uniformSamples
  rw [List.getD_eq_getElem _ _ (by simpa using heb)]
  simp

theorem uniformU_zero (s : DiskBSpline) (eb : ℕ) :
    s.uniformU eb 0 = s.kn s.degree := by
  unfold DiskBSpline.uniformU
  push_cast
  rw [zero_div, zero_mul, add_zero]

/-- The first adaptive sample is the first uniform sample. -/
theorem adaptivePass_eq_cons (s : DiskBSpline) (eb maxN : ℕ) (heb : 2 ≤ eb) :
    ∃ t, s.adaptivePass eb maxN =
      (s.uniformSamples eb).getD 0 (0, default) :: t := by
  unfold DiskBSpline.adaptivePass
  obtain ⟨m, hm⟩ : ∃ m, eb - 1 = m + 1 := ⟨eb - 2, by omega⟩
  rw [hm, List.range_succ_eq_map, List.foldl_cons]
  obtain ⟨l1, hl1⟩ := sampleStep_eq_append s (s.uniformSamples eb)
    (s.curvatureList eb) ((s.curvatureList eb).foldl max 0) maxN [] 0
  obtain ⟨t, ht⟩ := foldl_sampleStep_append s (s.uniformSamples eb)
    (s.curvatureList eb) ((s.curvatureList eb).foldl max 0) maxN
    (List.map Nat.succ (List.range m)) _
  refine ⟨l1 ++ t, ?_⟩
  rw [ht, hl1]
  simp

/-- The first sampled disk is the curve evaluated at the domain start. -/
theorem sampleCurveAdaptive_getD_zero (s : DiskBSpline) (base maxN : ℕ)
    (h : ¬ (s.controlDisks.length < s.degree + 1))
    (heb : 2 ≤ s.effectiveBase base) :
    (s.sampleCurveAdaptive base maxN).getD 0 default =
      s.evaluateAt (s.kn s.degree) := by
  unfold DiskBSpline.sampleCurveAdaptive
  rw [if_neg h]
  obtain ⟨t, ht⟩ := adaptivePass_eq_cons s (s.effectiveBase base) maxN heb
  rw [ht, uniformSamples_getD_zero s _ (by omega), uniformU_zero]
  simp

/-- Arc count of the closed-curve fill path: one arc exactly when the first
sampled disk (the curve at `knots[degree]`) has positive radius — the start
cap is not gated on `closed`, only the end cap is. -/
theorem closed_toSVGPath_countArcs (d : List Disk) (k : ℕ)
    (h : k + 1 ≤ (wrapDisks d k true).length) (ns : ℕ) :
    countArcs (((mkDiskBSpline d k true).toSVGPath ns).fillPath) =
      if 0 < ((mkDiskBSpline d k true).evaluateAt
          ((mkDiskBSpline d k true).kn (mkDiskBSpline d k true).degree)).radius
      then 1 else 0 := by
  have hins := mkDiskBSpline_not_insufficient d k true h
  have heb : 2 ≤ (mkDiskBSpline d k true).effectiveBase ns := by
    unfold DiskBSpline.effectiveBase
    have hl : k + 1 ≤ (mkDiskBSpline d k true).controlDisks.length := by
      rw [mkDiskBSpline_controlDisks]; exact h
    omega
  have hlen2 : 2 ≤ ((mkDiskBSpline d k true).sampleCurveAdaptive ns (ns * 2)).length :=
    le_trans heb (sampleCurveAdaptive_length_lb _ ns (ns * 2) hins)
  have hfirst := sampleCurveAdaptive_getD_zero (mkDiskBSpline d k true) ns (ns * 2)
    hins heb
  simp only [DiskBSpline.toSVGPath]
  rw [if_neg (not_lt.mpr hlen2)]
  simp only []
  rw [hfirst]
  rw [countArcs_append, countArcs_append, countArcs_append, countArcs_append]
  rw [countArcs_map_line, countArcs_map_line]
  have hclosed : (mkDiskBSpline d k true).closed = true := mkDiskBSpline_closed d k true
  rw [hclosed]
  simp only [if_pos rfl]
  by_cases hrad : 0 < ((mkDiskBSpline d k true).evaluateAt
      ((mkDiskBSpline d k true).kn (mkDiskBSpline d k true).degree)).radius
  · rw [if_pos hrad, if_pos hrad]
    simp [countArcs, List.filter_cons, PathCmd.isArc]
  · rw [if_neg hrad, if_neg hrad]
    simp [countArcs, List.filter_cons, PathCmd.isArc]

/-- C4 (amended): for every closed constructed spline with at least
`degree+1` control disks and every sample count, the fill path's only
possible arc command is the start cap's: the end cap is omitted, and exactly
one `A` command appears iff the first sampled disk (the curve at
`knots[degree]`) has positive radius.  The original claim (no `A` commands at
all) fails because the start cap is not gated on `closed`. -/
theorem claim_C4_closed_fillPath (d : List Disk) (k : ℕ)
    (h : k + 1 ≤ (wrapDisks d k true).length) (ns : ℕ) :
    countArcs (((mkDiskBSpline d k true).toSVGPath ns).fillPath) =
      if 0 < ((mkDiskBSpline d k true).evaluateAt
          ((mkDiskBSpline d k true).kn (mkDiskBSpline d k true).degree)).radius
      then 1 else 0 :=
  closed_toSVGPath_countArcs d k h ns

/-- C4 witness: the closed square of scenario C (radius 5 disks) yields a
fill path with exactly one arc command. -/
theorem claim_C4_witness :
    countArcs (((mkDiskBSpline squareDisksD 3 true).toSVGPath 50).fillPath) = 1 := by
  rw [claim_C4_closed_fillPath squareDisksD 3 (by decide) 50]
  rw [if_pos (by with_unfolding_all decide)]

/-- C4 counterexample: the same closed square's fill path does contain an
`A` (arc) command, contradicting the claim that closed-curve fill paths have
none. -/
theorem claim_C4_counterexample :
    0 < countArcs (((mkDiskBSpline squareDisksD 3 true).toSVGPath 50).fillPath) := by
  rw [closed_toSVGPath_countArcs squareDisksD 3 (by decide) 50]
  rw [if_pos (by with_unfolding_all decide)]
  norm_num
